import Mathlib

/-!
Verification development for the UniStacker backend scraper
(src/backend/dulms_public.py).

The Python module is shallowly embedded here:

* strings are modelled as String / List Char;
* datetime values are modelled as Int seconds relative to the Unix epoch,
  converted from civil dates by the standard days-from-civil algorithm;
  Python's datetime range (year 1 .. 9999) and the timedelta day bound
  (magnitude at most 999999999) are modelled explicitly, because
  exceeding them makes datetime arithmetic raise OverflowError;
* functions that can raise an exception the source does not catch return
  Except PyErr; exceptions the source catches are handled inside the
  embedding exactly where the corresponding try/except sits;
* the browser DOM is modelled as data (per-course simulation records
  describing what the driver returns at each step of the scraping loop),
  and the network side of the alert sender is modelled as the list of
  webhook payloads it would POST;
* regular-expression searches of the source are embedded as recursive
  matchers that follow Python's leftmost-match / lazy-or-greedy
  backtracking semantics for the concrete patterns used; the character
  classes are modelled over ASCII.
-/

namespace UniStacker

/-! ### Character helpers (ASCII models of Python character classes) -/

/-- ASCII model of Python whitespace (str.strip and the regex class as used
by the module): space, tab, newline, carriage return, vertical tab, form feed. -/
def isSpaceCh (c : Char) : Bool :=
  c = ' ' || c = '\t' || c = '\n' || c = '\r' || c = Char.ofNat 11 || c = Char.ofNat 12

/-- ASCII lower-casing, used to model the re.IGNORECASE flag. -/
def lowerCh (c : Char) : Char :=
  if 'A' ≤ c && c ≤ 'Z' then Char.ofNat (c.toNat + 32) else c

/-- ASCII model of the regex word class: letters, digits and underscore. -/
def isWordCh (c : Char) : Bool :=
  c.isAlpha || c.isDigit || c = '_'

/-- Numeric value of a decimal digit character. -/
def digitVal (c : Char) : Nat := c.toNat - 48

/-- Decimal value of a digit list, most significant digit first. -/
def decVal (l : List Char) : Nat := l.foldl (fun a c => a * 10 + digitVal c) 0

/-- Model of Python int() applied to a regex capture: succeeds exactly on a
nonempty all-digit string (the only shape the captures in this module can
take), returning its decimal value. -/
def listToNat? (l : List Char) : Option Nat :=
  if l ≠ [] && l.all Char.isDigit then some (decVal l) else none

/-- Case-insensitive prefix test (model of matching a literal under
re.IGNORECASE): the first list must be a prefix of the second up to
ASCII case. -/
def ciPref : List Char → List Char → Bool
  | [], _ => true
  | _ :: _, [] => false
  | p :: ps, c :: cs => lowerCh p = lowerCh c && ciPref ps cs

/-- Case-sensitive prefix test (Python str startswith, used for the
case-sensitive containment checks of the source). -/
def litPref : List Char → List Char → Bool
  | [], _ => true
  | _ :: _, [] => false
  | p :: ps, c :: cs => p = c && litPref ps cs

/-- Index of the first occurrence of needle in hay (Python str.find /
the in operator); none when absent. -/
def findSubIdx (needle : List Char) : List Char → Option Nat
  | [] => if litPref needle [] then some 0 else none
  | c :: cs =>
    if litPref needle (c :: cs) then some 0
    else (findSubIdx needle cs).map (· + 1)

/-- Python substring containment (needle in hay), case sensitive. -/
def containsSub (needle hay : List Char) : Bool :=
  (findSubIdx needle hay).isSome

/-- Python str.strip(): remove leading and trailing whitespace. -/
def pyStrip (l : List Char) : List Char :=
  ((l.dropWhile isSpaceCh).reverse.dropWhile isSpaceCh).reverse

/-- Model of str.replace applied with a single-character needle and
replacement (the source only uses replace of a newline by a space). -/
def replaceCh (a b : Char) (l : List Char) : List Char :=
  l.map fun c => if c = a then b else c

/-! ### The relative-date regex

The source searches (re.search, IGNORECASE) for

  Will be closed after:.*?(\d+)\s*days?.*?(\d+)\s*hours?

findNum scans left to right for the first position where a digit run,
optional whitespace, and the given literal (day / hour) match; this is
exactly the group a lazy dot-star followed by a greedy digit-plus
captures, because positions inside a digit run all see the same text
after the run.  consumeOptS consumes the optional trailing s of
days? / hours?. -/

/-- Consume one optional (case-insensitive) trailing s. -/
def consumeOptS : List Char → List Char
  | [] => []
  | c :: cs => if lowerCh c = 's' then cs else c :: cs

/-- Scan for the first digit run followed by optional whitespace and the
given case-insensitive literal; return the run and the input remaining
after the literal and its optional trailing s. -/
def findNum (pat : List Char) : List Char → Option (List Char × List Char)
  | [] => none
  | c :: cs =>
    if c.isDigit then
      let run := c :: cs.takeWhile Char.isDigit
      let afterWs := (cs.dropWhile Char.isDigit).dropWhile isSpaceCh
      if ciPref pat afterWs then some (run, consumeOptS (afterWs.drop pat.length))
      else findNum pat cs
    else findNum pat cs

/-- The literal that opens the relative-date pattern. -/
def relLit : List Char := "Will be closed after:".data

/-- Match the part of the relative pattern after the opening literal:
capture the day group and then the hour group. -/
def relTail (l : List Char) : Option (List Char × List Char) :=
  match findNum "day".data l with
  | none => none
  | some (g1, rest) =>
    match findNum "hour".data rest with
    | none => none
    | some (g2, _) => some (g1, g2)

/-- re.search for the relative-date pattern: try each start position left to
right; a match must begin with the opening literal (case-insensitive) and
its tail must produce both captures. -/
def relSearch : List Char → Option (List Char × List Char)
  | [] => none
  | c :: cs =>
    if ciPref relLit (c :: cs) then
      match relTail ((c :: cs).drop relLit.length) with
      | some r => some r
      | none => relSearch cs
    else relSearch cs

/-! ### Absolute-date cleaning

Source lines 720-721: strip a leading label (anchored, IGNORECASE,
alternatives tried in order) and pad a single-digit day-of-month:

  re.sub(r"^(Closed at:|Opened at:|Will be opened at:)\s*", "", s).strip()
  re.sub(r"(\b\w{3})\s+(\d),", r"\1 0\2,", s)
-/

/-- The label alternatives, in the order the regex alternation tries them. -/
def labelLits : List (List Char) :=
  ["Closed at:".data, "Opened at:".data, "Will be opened at:".data]

/-- Drop the first label (if any) that case-insensitively matches at the
start, together with the whitespace after it, then strip. -/
def stripLabel (l : List Char) : List Char :=
  let rest :=
    match labelLits.find? (fun lbl => ciPref lbl l) with
    | some lbl => (l.drop lbl.length).dropWhile isSpaceCh
    | none => l
  pyStrip rest

/-- One scan step of the day-padding substitution.  fuel bounds recursion
depth (the scan advances at least one character per step); prevW tracks
whether the previous character was a word character (for the boundary).
On a match the scan resumes after the matched text, as re.sub does. -/
def padDayAux : Nat → Bool → List Char → List Char
  | 0, _, l => l
  | _ + 1, _, [] => []
  | fuel + 1, prevW, c1 :: rest =>
    let step := c1 :: padDayAux fuel (isWordCh c1) rest
    if !prevW && isWordCh c1 then
      match rest with
      | c2 :: c3 :: rest2 =>
        if isWordCh c2 && isWordCh c3 then
          let ws := rest2.takeWhile isSpaceCh
          let after := rest2.dropWhile isSpaceCh
          if ws ≠ [] then
            match after with
            | d :: comma :: rest3 =>
              if d.isDigit && comma = ',' then
                c1 :: c2 :: c3 :: ' ' :: '0' :: d :: ',' :: padDayAux fuel false rest3
              else step
            | _ => step
          else step
        else step
      | _ => step
    else step

/-- The day-padding substitution over a whole string. -/
def padDay (l : List Char) : List Char := padDayAux l.length false l

/-! ### strptime

Python strptime compiles a format into a regex (IGNORECASE, anchored at
the start, with the whole input required to be consumed afterwards);
each directive becomes an ordered alternation.  The engine below
enumerates matches in the regex backtracking order and keeps the first,
exactly as re.match does, then checks that no unconverted data remains. -/

inductive Dir
  | b | bFull | d | y | i | min | p | h | s | mNum | a
  deriving DecidableEq

inductive Tok
  | lit (c : Char)
  | ws
  | dir (dk : Dir)

/-- Partial assignment of date/time fields built while matching. -/
structure PA where
  month : Option Nat
  day : Option Nat
  year : Option Nat
  hour12 : Option Nat
  minute : Option Nat
  sec : Option Nat
  ampm : Option Nat
  hour24 : Option Nat
  wkd : Option Nat

def PA.empty : PA := ⟨none, none, none, none, none, none, none, none, none⟩

def setDir (pa : PA) (dk : Dir) (v : Nat) : PA :=
  match dk with
  | .b => { pa with month := some v }
  | .bFull => { pa with month := some v }
  | .d => { pa with day := some v }
  | .y => { pa with year := some v }
  | .i => { pa with hour12 := some v }
  | .min => { pa with minute := some v }
  | .p => { pa with ampm := some v }
  | .h => { pa with hour24 := some v }
  | .s => { pa with sec := some v }
  | .mNum => { pa with month := some v }
  | .a => { pa with wkd := some v }

def monthAbbrs : List (List Char) :=
  ["jan".data, "feb".data, "mar".data, "apr".data, "may".data, "jun".data,
   "jul".data, "aug".data, "sep".data, "oct".data, "nov".data, "dec".data]

def monthFulls : List (List Char) :=
  ["january".data, "february".data, "march".data, "april".data, "may".data,
   "june".data, "july".data, "august".data, "september".data, "october".data,
   "november".data, "december".data]

def wkdAbbrs : List (List Char) :=
  ["mon".data, "tue".data, "wed".data, "thu".data, "fri".data, "sat".data, "sun".data]

/-- Match one name of the list (case-insensitively) as a prefix; value is
its 0-based index.  The names used here are never prefixes of each other,
so at most one can match and the alternation order is immaterial. -/
def matchName (names : List (List Char)) (l : List Char) : List (Nat × List Char) :=
  match names.enum.find? (fun nl => ciPref nl.2 l) with
  | some (idx, nm) => [(idx, l.drop nm.length)]
  | none => []

def isD1to9 (c : Char) : Bool := '1' ≤ c && c ≤ '9'

/-- Ordered alternation candidates for each numeric directive, following
the regexes of Lib/_strptime.py, e.g. d is 3[01]|[12]\d|0[1-9]|[1-9]. -/
def altsFor (dk : Dir) (l : List Char) : List (Nat × List Char) :=
  match dk with
  | .b => matchName monthAbbrs l |>.map fun vr => (vr.1 + 1, vr.2)
  | .bFull => matchName monthFulls l |>.map fun vr => (vr.1 + 1, vr.2)
  | .a => matchName wkdAbbrs l
  | .p => matchName ["am".data, "pm".data] l
  | .y =>
    match l with
    | c1 :: c2 :: c3 :: c4 :: r =>
      if c1.isDigit && c2.isDigit && c3.isDigit && c4.isDigit then
        [(decVal [c1, c2, c3, c4], r)]
      else []
    | _ => []
  | .d =>
    (match l with
     | c1 :: c2 :: r =>
       (if c1 = '3' && (c2 = '0' || c2 = '1') then [(decVal [c1, c2], r)] else []) ++
       (if (c1 = '1' || c1 = '2') && c2.isDigit then [(decVal [c1, c2], r)] else []) ++
       (if c1 = '0' && isD1to9 c2 then [(decVal [c1, c2], r)] else [])
     | _ => []) ++
    (match l with
     | c1 :: r => if isD1to9 c1 then [(digitVal c1, r)] else []
     | _ => [])
  | .mNum =>
    (match l with
     | c1 :: c2 :: r =>
       (if c1 = '1' && (c2 = '0' || c2 = '1' || c2 = '2') then [(decVal [c1, c2], r)] else []) ++
       (if c1 = '0' && isD1to9 c2 then [(decVal [c1, c2], r)] else [])
     | _ => []) ++
    (match l with
     | c1 :: r => if isD1to9 c1 then [(digitVal c1, r)] else []
     | _ => [])
  | .i =>
    (match l with
     | c1 :: c2 :: r =>
       (if c1 = '1' && (c2 = '0' || c2 = '1' || c2 = '2') then [(decVal [c1, c2], r)] else []) ++
       (if c1 = '0' && isD1to9 c2 then [(decVal [c1, c2], r)] else [])
     | _ => []) ++
    (match l with
     | c1 :: r => if isD1to9 c1 then [(digitVal c1, r)] else []
     | _ => [])
  | .h =>
    (match l with
     | c1 :: c2 :: r =>
       (if c1 = '2' && ('0' ≤ c2 && c2 ≤ '3') then [(decVal [c1, c2], r)] else []) ++
       (if (c1 = '0' || c1 = '1') && c2.isDigit then [(decVal [c1, c2], r)] else [])
     | _ => []) ++
    (match l with
     | c1 :: r => if c1.isDigit then [(digitVal c1, r)] else []
     | _ => [])
  | .min =>
    (match l with
     | c1 :: c2 :: r =>
       if ('0' ≤ c1 && c1 ≤ '5') && c2.isDigit then [(decVal [c1, c2], r)] else []
     | _ => []) ++
    (match l with
     | c1 :: r => if c1.isDigit then [(digitVal c1, r)] else []
     | _ => [])
  | .s =>
    (match l with
     | c1 :: c2 :: r =>
       (if c1 = '6' && (c2 = '0' || c2 = '1') then [(decVal [c1, c2], r)] else []) ++
       (if ('0' ≤ c1 && c1 ≤ '5') && c2.isDigit then [(decVal [c1, c2], r)] else [])
     | _ => []) ++
    (match l with
     | c1 :: r => if c1.isDigit then [(digitVal c1, r)] else []
     | _ => [])

/-- Candidate remainders after a run of format whitespace: the regex
fragment is greedy whitespace-plus, so longest consumption first. -/
def wsSplits (l : List Char) : List (List Char) :=
  let n := (l.takeWhile isSpaceCh).length
  (List.range n).map fun j => l.drop (n - j)

/-- All matches of a token list against the input, in regex backtracking
order; each result is the assignment built and the unconsumed remainder. -/
def runToks : List Tok → List Char → PA → List (PA × List Char)
  | [], l, pa => [(pa, l)]
  | t :: ts, l, pa =>
    match t with
    | .lit c =>
      match l with
      | c1 :: r => if lowerCh c = lowerCh c1 then runToks ts r pa else []
      | [] => []
    | .ws => (wsSplits l).flatMap fun r => runToks ts r pa
    | .dir dk => (altsFor dk l).flatMap fun vr => runToks ts vr.2 (setDir pa dk vr.1)

/-! ### The five formats of parse_date, tokenised

  "%b %d, %Y at %I:%M %p"
  "%B %d, %Y at %I:%M %p"
  "%Y-%m-%d %H:%M:%S"
  "%m/%d/%Y %I:%M %p"
  "%a, %b %d, %Y %I:%M %p"

Runs of literal whitespace in a format compile to whitespace-plus;
other literal characters match themselves case-insensitively. -/

def fmt1 : List Tok :=
  [.dir .b, .ws, .dir .d, .lit ',', .ws, .dir .y, .ws, .lit 'a', .lit 't', .ws,
   .dir .i, .lit ':', .dir .min, .ws, .dir .p]

def fmt2 : List Tok :=
  [.dir .bFull, .ws, .dir .d, .lit ',', .ws, .dir .y, .ws, .lit 'a', .lit 't', .ws,
   .dir .i, .lit ':', .dir .min, .ws, .dir .p]

def fmt3 : List Tok :=
  [.dir .y, .lit '-', .dir .mNum, .lit '-', .dir .d, .ws,
   .dir .h, .lit ':', .dir .min, .lit ':', .dir .s]

def fmt4 : List Tok :=
  [.dir .mNum, .lit '/', .dir .d, .lit '/', .dir .y, .ws,
   .dir .i, .lit ':', .dir .min, .ws, .dir .p]

def fmt5 : List Tok :=
  [.dir .a, .lit ',', .ws, .dir .b, .ws, .dir .d, .lit ',', .ws, .dir .y, .ws,
   .dir .i, .lit ':', .dir .min, .ws, .dir .p]

def allFmts : List (List Tok) := [fmt1, fmt2, fmt3, fmt4, fmt5]

/-! ### Civil date arithmetic (model of the datetime type) -/

/-- A civil date-time as constructed by datetime(...). -/
structure DT where
  year : Nat
  month : Nat
  day : Nat
  hour : Nat
  minute : Nat
  sec : Nat
  deriving DecidableEq

def isLeap (y : Nat) : Bool :=
  (y % 4 = 0 && y % 100 ≠ 0) || y % 400 = 0

def daysInMonth (y m : Nat) : Nat :=
  if m = 2 then (if isLeap y then 29 else 28)
  else if m = 4 || m = 6 || m = 9 || m = 11 then 30
  else 31

/-- Days from the Unix epoch to the given civil date (standard
days-from-civil algorithm, valid for year at least 1). -/
def daysFromCivil (y m d : Nat) : Int :=
  let y' : Int := if m ≤ 2 then (y : Int) - 1 else (y : Int)
  let era : Int := y' / 400
  let yoe : Int := y' - era * 400
  let mp : Int := if m > 2 then (m : Int) - 3 else (m : Int) + 9
  let doy : Int := (153 * mp + 2) / 5 + (d : Int) - 1
  let doe : Int := yoe * 365 + yoe / 4 - yoe / 100 + doy
  era * 146097 + doe - 719468

/-- Seconds from the Unix epoch (the model of a datetime value). -/
def toSecs (dt : DT) : Int :=
  daysFromCivil dt.year dt.month dt.day * 86400
    + dt.hour * 3600 + dt.minute * 60 + dt.sec

/-- Model of datetime.min, in seconds: year 1, Jan 1, midnight. -/
def minSecs : Int := daysFromCivil 1 1 1 * 86400

/-- Model of datetime.max (to second resolution): 9999-12-31 23:59:59. -/
def maxSecs : Int := toSecs ⟨9999, 12, 31, 23, 59, 59⟩

/-- Build the datetime from a completed strptime assignment, applying the
strptime defaults (year 1900, month 1, day 1, midnight), the 12-hour
conversion when %I and %p are both present, and the validity checks the
datetime constructor performs (a failure is a ValueError, which
parse_date catches by moving to the next format, so it is none here). -/
def buildDT (pa : PA) : Option DT :=
  let y := pa.year.getD 1900
  let m := pa.month.getD 1
  let d := pa.day.getD 1
  let hh :=
    match pa.hour24 with
    | some h => h
    | none =>
      match pa.hour12 with
      | none => 0
      | some h12 =>
        match pa.ampm with
        | some 1 => if h12 = 12 then 12 else h12 + 12
        | _ => if h12 = 12 then 0 else h12
  let mi := pa.minute.getD 0
  let ss := pa.sec.getD 0
  if 1 ≤ y && 1 ≤ m && m ≤ 12 && 1 ≤ d && d ≤ daysInMonth y m
      && hh ≤ 23 && mi ≤ 59 && ss ≤ 59 then
    some ⟨y, m, d, hh, mi, ss⟩
  else none

/-- strptime with one format: keep the first regex match (backtracking
order), then require that the whole input was consumed. -/
def tryFmt (toks : List Tok) (l : List Char) : Option DT :=
  match runToks toks l PA.empty with
  | [] => none
  | (pa, rest) :: _ => if rest = [] then buildDT pa else none

/-- The format loop of parse_date: first format that parses wins. -/
def tryFormats : List (List Tok) → List Char → Option DT
  | [], _ => none
  | f :: fs, l =>
    match tryFmt f l with
    | some dt => some dt
    | none => tryFormats fs l

/-! ### parse_date -/

/-- The exceptions this embedding tracks: the OverflowError that datetime
arithmetic raises when a result leaves the representable range (or a
timedelta exceeds 999999999 days). -/
inductive PyErr
  | overflow
  deriving DecidableEq

/-- The sentinel inputs parse_date returns None for immediately. -/
def sentinels : List String := ["No Deadline Info", "No Status/Date", "N/A", "Unknown"]

/-- datetime.now() + timedelta(days=D, hours=H), with the overflow
behaviour of Python: timedelta construction requires the normalized day
count to be at most 999999999, and the addition requires the result to
stay within the datetime range; otherwise OverflowError is raised, which
parse_date does not catch (its handler catches only ValueError and
IndexError). -/
def relCompute (now : Int) (dd hh : Nat) : Except PyErr (Option Int) :=
  if (dd * 86400 + hh * 3600) / 86400 ≤ 999999999 then
    let r : Int := now + (dd * 86400 + hh * 3600 : Nat)
    if minSecs ≤ r && r ≤ maxSecs then .ok (some r) else .error .overflow
  else .error .overflow

/-- The absolute-date branch of parse_date: strip labels, pad the day,
try the five formats in order. -/
def parseAbs (l : List Char) : Option Int :=
  (tryFormats allFmts (padDay (stripLabel l))).map toSecs

/-- parse_date (source lines 699-740), with the injected now of the
specification standing for datetime.now().  Returns ok none where the
source returns None, ok (some secs) where it returns a datetime, and
error where an uncaught exception escapes.  The match on listToNat?
mirrors the try/except around int(): a conversion failure falls through
to absolute parsing. -/
def parseDateE (s : String) (now : Int) : Except PyErr (Option Int) :=
  if s = "" || sentinels.contains s then .ok none
  else
    let ds := pyStrip (replaceCh '\n' ' ' s.data)
    match relSearch ds with
    | some (g1, g2) =>
      match listToNat? g1, listToNat? g2 with
      | some dd, some hh => relCompute now dd hh
      | _, _ => .ok (parseAbs ds)
    | none => .ok (parseAbs ds)

/-- parse_date as the rest of the module consumes it (the value when no
exception escapes). -/
def parse_date (s : String) (now : Int) : Option Int :=
  match parseDateE s now with
  | .ok r => r
  | .error _ => none

instance {ε α : Type} [DecidableEq ε] [DecidableEq α] : DecidableEq (Except ε α) :=
  fun a b =>
  match a, b with
  | .error x, .error y => decidable_of_iff (x = y) (by simp)
  | .ok x, .ok y => decidable_of_iff (x = y) (by simp)
  | .error _, .ok _ => isFalse (fun h => Except.noConfusion h)
  | .ok _, .error _ => isFalse (fun h => Except.noConfusion h)

/-! ### check_upcoming_deadlines (source lines 743-781)

Tasks are the loosely-typed dicts of the scraper: every field access
goes through .get, so each field is optional here.  The specification
injects a single now for both the evaluator and the relative branch of
parse_date. -/

structure Task where
  course : Option String
  name : Option String
  type_ : Option String
  closed_at : Option String
  status : Option String
  deriving DecidableEq

structure Deadline where
  course : String
  name : String
  due_date_str : String
  due : Int
  days_left : Nat
  type_ : String
  deriving DecidableEq

structure CheckData where
  assignments : List Task
  quizzes_with_results : List Task
  quizzes_without_results : List Task

/-- The concatenation order of the source: assignments, then quizzes with
results, then quizzes without results. -/
def allTasks (d : CheckData) : List Task :=
  d.assignments ++ d.quizzes_with_results ++ d.quizzes_without_results

/-- task.get("closed_at") or task.get("status"), then the falsy check
that skips the task: none when the resolved value is missing or empty. -/
def resolvedDate (t : Task) : Option String :=
  let s :=
    match t.closed_at with
    | some c => if c = "" then t.status else some c
    | none => t.status
  match s with
  | some v => if v = "" then none else some v
  | none => none

/-- timedelta.days of a positive difference: whole-day truncation. -/
def daysLeftOf (due now : Int) : Nat := (due - now).toNat / 86400

/-- The deadline record the evaluator appends. -/
def mkDeadline (t : Task) (s : String) (due : Int) (now : Int) : Deadline :=
  ⟨t.course.getD "N/A", t.name.getD "Unnamed Task", s, due, daysLeftOf due now,
   t.type_.getD "Task"⟩

/-- One iteration of the evaluator loop: skip tasks without a usable date
string, parse (propagating an uncaught exception), and keep the task only
when the deadline is strictly in the future within the threshold. -/
def evalTaskE (now : Int) (thr : Nat) (t : Task) : Except PyErr (Option Deadline) :=
  match resolvedDate t with
  | none => .ok none
  | some s =>
    match parseDateE s now with
    | .error e => .error e
    | .ok none => .ok none
    | .ok (some due) =>
      if now < due && daysLeftOf due now ≤ thr then .ok (some (mkDeadline t s due now))
      else .ok none

/-- The evaluator loop: left to right, first uncaught exception aborts. -/
def collectE (now : Int) (thr : Nat) : List Task → Except PyErr (List Deadline)
  | [] => .ok []
  | t :: ts =>
    match evalTaskE now thr t with
    | .error e => .error e
    | .ok none => collectE now thr ts
    | .ok (some dl) =>
      match collectE now thr ts with
      | .error e => .error e
      | .ok rest => .ok (dl :: rest)

/-- Ordering key of the final sort: the parsed due date. -/
def dueLe (a b : Deadline) : Prop := a.due ≤ b.due

instance : DecidableRel dueLe := fun a b => inferInstanceAs (Decidable (a.due ≤ b.due))

instance : IsTotal Deadline dueLe := ⟨fun a b => Int.le_total a.due b.due⟩

instance : IsTrans Deadline dueLe := ⟨fun _ _ _ h1 h2 => le_trans h1 h2⟩

/-- check_upcoming_deadlines: collect the eligible deadlines in input
order, then sort ascending by due date with a stable sort (Python
list.sort is stable; a stable sort over a total preorder key is unique,
and insertionSort realises it). -/
def check_upcoming_deadlines (data : CheckData) (thr : Nat) (now : Int) :
    Except PyErr (List Deadline) :=
  match collectE now thr (allTasks data) with
  | .error e => .error e
  | .ok pre => .ok (List.insertionSort dueLe pre)

/-! ### send_deadline_alerts (source lines 783-854)

The network side is modelled as the list of webhook payloads the
function would POST, in order.  An embed is modelled by the fields the
source fills; the formatted due-date string is represented by the
underlying due value. -/

structure Embed where
  title : String
  color : Nat
  course : String
  dueSecs : Int
  daysLabel : String
  deriving DecidableEq

inductive Message
  | allClear
  | batch (part total : Nat) (embeds : List Embed)
  deriving DecidableEq

/-- The per-deadline embed: severity colour by days_left and the
human-readable label. -/
def mkEmbed (t : Deadline) : Embed :=
  { title := t.type_ ++ ": " ++ t.name
    color := if t.days_left ≤ 1 then 15158332 else if t.days_left ≤ 3 then 15105570 else 16776960
    course := t.course
    dueSecs := t.due
    daysLabel :=
      if t.days_left = 0 then "**Due Today!**"
      else if t.days_left = 1 then "**Due Tomorrow!**"
      else toString t.days_left ++ " days" }

/-- upcoming_tasks[i:i+10] chunking of the source. -/
def chunk10 : List Deadline → List (List Deadline)
  | [] => []
  | x :: xs => (x :: xs).take 10 :: chunk10 ((x :: xs).drop 10)
termination_by l => l.length
decreasing_by simp [List.length_drop]; omega

/-- Build one message per chunk; part carries the 1-based chunk index the
source interpolates into the summary content string. -/
def buildMsgs (total : Nat) : Nat → List (List Deadline) → List Message
  | _, [] => []
  | i, c :: cs => .batch (i + 1) total (c.map mkEmbed) :: buildMsgs total (i + 1) cs

/-- The webhook-URL shape check of the source. -/
def urlOk (url : String) : Bool :=
  containsSub "discord.com/api/webhooks".data url.data

/-- send_deadline_alerts: no payload for a non-webhook URL; a single
all-clear payload for an empty list; otherwise one batch per chunk of at
most ten deadlines. -/
def send_deadline_alerts (upcoming : List Deadline) (url : String) : List Message :=
  if !urlOk url then []
  else
    let chunks := chunk10 upcoming
    if chunks = [] then [.allClear]
    else buildMsgs chunks.length 0 chunks

/-! ### login (source lines 283-359)

The environment of one login attempt is modelled by how the attempt
fails (or succeeds) and what the portal page shows at that moment.  The
control flow of the source:

* a TimeoutException or NoSuchElementException is caught by the first
  handler, which only logs - it never inspects the page, so the
  badCredsShown flag (the page state) is invisible to it;
* any other exception reaches the second handler, which inspects the
  current URL and the page source: still on the login page with the
  invalid-credentials message, it raises immediately; otherwise it falls
  through to the retry logic;
* after the last attempt the loop raises the maximum-attempts error. -/

inductive AttemptOutcome
  /-- The attempt reached the profile URL; login returns. -/
  | success
  /-- The attempt raised TimeoutException or NoSuchElementException;
  badCredsShown records whether the portal page was showing the
  invalid-credentials message at that moment (state the source never
  reads in this handler). -/
  | failTimeout (badCredsShown : Bool)
  /-- The attempt raised some other exception; the flags record whether
  the browser was still on the login page, and whether the page showed
  the bad-credentials or the bad-captcha message. -/
  | failOther (onLoginPage badCredsMsg badCaptchaMsg : Bool)

inductive LoginRes
  | ok
  /-- raise Exception("Invalid credentials provided.") -/
  | invalidCreds
  /-- raise Exception("Maximum login attempts reached.") -/
  | loginFailed
  /-- The loop body never ran (max_retries = 0): the source falls off the
  loop and returns None. -/
  | fellThrough
  deriving DecidableEq

/-- An attempt outcome the source treats as retryable. -/
def retryable : AttemptOutcome → Bool
  | .failTimeout _ => true
  | .failOther onLogin badCreds _ => !(onLogin && badCreds)
  | .success => false

/-- The attempt loop from attempt index i with the given number of
attempts remaining; returns the result and the number of attempts
performed. -/
def loginAux (script : Nat → AttemptOutcome) (i : Nat) : Nat → LoginRes × Nat
  | 0 => (.fellThrough, i)
  | remaining + 1 =>
    match script i with
    | .success => (.ok, i + 1)
    | .failTimeout _ =>
      if remaining = 0 then (.loginFailed, i + 1) else loginAux script (i + 1) remaining
    | .failOther onLogin badCreds _ =>
      if onLogin && badCreds then (.invalidCreds, i + 1)
      else if remaining = 0 then (.loginFailed, i + 1) else loginAux script (i + 1) remaining

/-- login with max_retries attempts against the scripted environment. -/
def login (script : Nat → AttemptOutcome) (maxRetries : Nat) : LoginRes × Nat :=
  loginAux script 0 maxRetries

/-! ### scrape_quizzes / scrape_assignments (source lines 438-556, 558-695)

A course section of the rendered page is simulated by what the driver
yields at each step of the per-course loop:

* phaseAExc: an exception raised during the scroll / course-name phase,
  before the course is recorded in courses_found_on_page.  A stale
  reference is caught by the per-course stale handler (continue); any
  other exception reaches the generic per-course handler.
* nameText: the course-name text when the name element becomes visible
  (none models the caught TimeoutException / NoSuchElementException,
  after which the default name is used).
* expandOk: whether expand_course_panel returns True (that helper
  catches all its own exceptions and returns a Bool).
* phaseBExc: an exception raised after courses_processed was
  incremented, while locating the item list.
* items: the item elements found in the expanded panel. -/

inductive ExcKind
  | stale
  | other
  deriving DecidableEq

/-- One quiz article, by the text content its field elements yield
(empty string where the element is missing, matching safe_get_text of a
safe_find_element miss); attempts is optional because the source tests
element presence, not text truthiness, for that field.  The per-item
stale-skip and generic-salvage handlers of the source absorb driver
failures below the granularity of this DOM-content model; items here are
the ones whose fields were read. -/
structure QuizItemSim where
  nameText : String
  statusText : String
  gradeText : String
  attempts : Option String
  deriving DecidableEq

structure CourseSim (item : Type) where
  phaseAExc : Option ExcKind
  nameText : Option String
  expandOk : Bool
  phaseBExc : Option ExcKind
  items : List item

structure QuizData where
  course : String
  name : String
  closed_at : String
  grade : String
  attempts : String
  deriving DecidableEq

structure QuizResults where
  quizzes_with_results : List QuizData
  quizzes_without_results : List QuizData
  courses_processed : Nat
  total_quizzes_found : Nat
  courses_found_on_page : List String
  quiz_courses_with_no_items : List String
  quiz_courses_failed_expansion : List String
  deriving DecidableEq

def emptyQuizResults : QuizResults := ⟨[], [], 0, 0, [], [], []⟩

/-- raw_status.split(needle)[1].strip(): the text between the first and
second occurrence of the needle (to the end when there is no second
occurrence), stripped.  Only called when the needle occurs. -/
def splitSecondStrip (needle l : List Char) : List Char :=
  match findSubIdx needle l with
  | none => []
  | some i =>
    let rest := l.drop (i + needle.length)
    match findSubIdx needle rest with
    | none => pyStrip rest
    | some j => pyStrip (rest.take j)

/-- The closed_at normalisation of a quiz status (source lines 515-522). -/
def quizClosedAt (raw : String) : String :=
  if containsSub "Closed at:".data raw.data then
    (splitSecondStrip "Closed at:".data raw.data).asString
  else if containsSub "Will be opened at:".data raw.data then raw
  else if containsSub "Opened at:".data raw.data then raw
  else if raw = "" then "No Status/Date" else raw

/-- The grade normalisation (source line 525). -/
def normGrade (raw : String) : String :=
  if raw ≠ "" && raw ≠ "--" then raw else "Not Graded"

/-- Field extraction for one quiz article (source lines 509-527). -/
def processQuizItem (course : String) (it : QuizItemSim) : QuizData :=
  { course := course
    name := if it.nameText = "" then "Unnamed Quiz" else it.nameText
    closed_at := quizClosedAt it.statusText
    grade := normGrade it.gradeText
    attempts := match it.attempts with | some t => t | none => "Attempts N/A" }

/-- The classification test of source line 529. -/
def quizHasResults (qd : QuizData) : Bool :=
  qd.grade ≠ "Not Graded" && containsSub "/".data qd.grade.data

/-- Append the quiz items of one processed course to the two buckets. -/
def appendQuizItems (course : String) (items : List QuizItemSim) (r : QuizResults) :
    QuizResults :=
  items.foldl
    (fun r it =>
      let qd := processQuizItem course it
      if quizHasResults qd then
        { r with quizzes_with_results := r.quizzes_with_results ++ [qd] }
      else
        { r with quizzes_without_results := r.quizzes_without_results ++ [qd] })
    r

/-- The default course name initialised before the per-course try block. -/
def defaultCourseName (idx : Nat) : String := "Unknown Course " ++ toString (idx + 1)

/-- One iteration of the course loop of scrape_quizzes. -/
def quizCourseStep (idx : Nat) (c : CourseSim QuizItemSim) (r : QuizResults) : QuizResults :=
  match c.phaseAExc with
  | some .stale => r
  | some .other =>
    if r.quiz_courses_failed_expansion.contains (defaultCourseName idx) then r
    else { r with quiz_courses_failed_expansion :=
                    r.quiz_courses_failed_expansion ++ [defaultCourseName idx] }
  | none =>
    let name := c.nameText.getD (defaultCourseName idx)
    let r := { r with courses_found_on_page := r.courses_found_on_page ++ [name] }
    if !c.expandOk then
      { r with quiz_courses_failed_expansion := r.quiz_courses_failed_expansion ++ [name] }
    else
      let r := { r with courses_processed := r.courses_processed + 1 }
      match c.phaseBExc with
      | some .stale => r
      | some .other =>
        if r.quiz_courses_failed_expansion.contains name then r
        else { r with quiz_courses_failed_expansion :=
                        r.quiz_courses_failed_expansion ++ [name] }
      | none =>
        let r := { r with total_quizzes_found := r.total_quizzes_found + c.items.length }
        let r :=
          if c.items.isEmpty then
            { r with quiz_courses_with_no_items := r.quiz_courses_with_no_items ++ [name] }
          else r
        appendQuizItems name c.items r

def quizLoop : Nat → List (CourseSim QuizItemSim) → QuizResults → QuizResults
  | _, [], r => r
  | idx, c :: cs, r => quizLoop (idx + 1) cs (quizCourseStep idx c r)

/-- scrape_quizzes over a simulated page (an empty course list models the
timeout path that returns the empty result). -/
def scrape_quizzes (courses : List (CourseSim QuizItemSim)) : QuizResults :=
  quizLoop 0 courses emptyQuizResults

/-! ### scrape_assignments item fields (source lines 627-682) -/

/-- One assignment article: the name text (after the three-selector
fallback chain), the submit-status element text when present, the texts
of the div elements with status in their class (the fallback scan), the
innerText of the date element when present, the texts of the small div
elements (the date fallback scan), and the graded-status text. -/
structure AssignItemSim where
  nameText : String
  submitElem : Option String
  statusDivTexts : List String
  dateElemText : Option String
  smallDivTexts : List String
  gradeText : String
  deriving DecidableEq

structure AssignData where
  course : String
  name : String
  submit_status : String
  closed_at : String
  grading_status : String
  deriving DecidableEq

structure AssignResults where
  assignments : List AssignData
  courses_processed : Nat
  total_assignments_found : Nat
  courses_found_on_page : List String
  assignment_courses_with_no_items : List String
  assignment_courses_failed_expansion : List String
  deriving DecidableEq

def emptyAssignResults : AssignResults := ⟨[], 0, 0, [], [], []⟩

/-- The am/pm tail of the date-like pattern: two digits, a space and
AM or PM (case-insensitive). -/
def hhmmTail (l : List Char) : Bool :=
  match l with
  | a :: b :: ' ' :: p1 :: p2 :: _ =>
    a.isDigit && b.isDigit &&
      (ciPref "am".data [p1, p2] || ciPref "pm".data [p1, p2])
  | _ => false

/-- The second alternative of the date-like regex: a space, one or two
digits, a colon, two digits, a space and AM/PM. -/
def dateAlt2 (l : List Char) : Bool :=
  match l with
  | ' ' :: d1 :: rest =>
    d1.isDigit &&
      (match rest with
       | d2 :: ':' :: r2 => d2.isDigit && hhmmTail r2
       | ':' :: r2 => hhmmTail r2
       | _ => false)
  | _ => false

/-- Does the date-like regex of the assignment fallback scan
(month abbreviation at a word boundary followed by a space, or a
clock time, or the phrase Will be closed with its leading space)
match at this position?  prevW tracks the word boundary. -/
def dateLikeAt (prevW : Bool) (l : List Char) : Bool :=
  (!prevW && monthAbbrs.any fun m => ciPref (m ++ [' ']) l) ||
  dateAlt2 l ||
  ciPref " Will be closed".data l

/-- re.search of the date-like regex over the whole text. -/
def dateLikeSearch : Bool → List Char → Bool
  | _, [] => false
  | prevW, c :: cs => dateLikeAt prevW (c :: cs) || dateLikeSearch (isWordCh c) cs

/-- The raw date text of one assignment: prefer the date element's
innerText, otherwise the first small div whose text the date-like regex
matches, otherwise empty. -/
def assignRawDate (it : AssignItemSim) : String :=
  match it.dateElemText with
  | some t => t
  | none =>
    match it.smallDivTexts.find? (fun t => dateLikeSearch false t.data) with
    | some t => t
    | none => ""

/-- The submit status: the status element's text when the element is
present, otherwise the first status-classed div containing Submitted or
Not Submitted, otherwise Status Unknown. -/
def assignSubmit (it : AssignItemSim) : String :=
  match it.submitElem with
  | some t => t
  | none =>
    match it.statusDivTexts.find?
        (fun t => containsSub "Submitted".data t.data
               || containsSub "Not Submitted".data t.data) with
    | some t => t
    | none => "Status Unknown"

/-- closed_at normalisation for assignments (source lines 661-666). -/
def assignClosedAt (raw : String) : String :=
  if containsSub "Closed at:".data raw.data then
    (splitSecondStrip "Closed at:".data raw.data).asString
  else if containsSub "Will be closed after:".data raw.data then raw
  else if raw = "" then "No Deadline Info" else raw

/-- Field extraction for one assignment article. -/
def processAssignItem (course : String) (it : AssignItemSim) : AssignData :=
  { course := course
    name := if it.nameText = "" then "Unnamed Assignment" else it.nameText
    submit_status := assignSubmit it
    closed_at := assignClosedAt (assignRawDate it)
    grading_status := if it.gradeText ≠ "" && it.gradeText ≠ "--" then it.gradeText
                      else "Not Graded Yet" }

/-- One iteration of the course loop of scrape_assignments; the control
flow mirrors quizCourseStep (the two loops in the source are
near-identical). -/
def assignCourseStep (idx : Nat) (c : CourseSim AssignItemSim) (r : AssignResults) :
    AssignResults :=
  match c.phaseAExc with
  | some .stale => r
  | some .other =>
    if r.assignment_courses_failed_expansion.contains (defaultCourseName idx) then r
    else { r with assignment_courses_failed_expansion :=
                    r.assignment_courses_failed_expansion ++ [defaultCourseName idx] }
  | none =>
    let name := c.nameText.getD (defaultCourseName idx)
    let r := { r with courses_found_on_page := r.courses_found_on_page ++ [name] }
    if !c.expandOk then
      { r with assignment_courses_failed_expansion :=
                 r.assignment_courses_failed_expansion ++ [name] }
    else
      let r := { r with courses_processed := r.courses_processed + 1 }
      match c.phaseBExc with
      | some .stale => r
      | some .other =>
        if r.assignment_courses_failed_expansion.contains name then r
        else { r with assignment_courses_failed_expansion :=
                        r.assignment_courses_failed_expansion ++ [name] }
      | none =>
        let r := { r with total_assignments_found :=
                            r.total_assignments_found + c.items.length }
        let r :=
          if c.items.isEmpty then
            { r with assignment_courses_with_no_items :=
                       r.assignment_courses_with_no_items ++ [name] }
          else r
        { r with assignments := r.assignments ++ c.items.map (processAssignItem name) }

def assignLoop : Nat → List (CourseSim AssignItemSim) → AssignResults → AssignResults
  | _, [], r => r
  | idx, c :: cs, r => assignLoop (idx + 1) cs (assignCourseStep idx c r)

/-- scrape_assignments over a simulated page. -/
def scrape_assignments (courses : List (CourseSim AssignItemSim)) : AssignResults :=
  assignLoop 0 courses emptyAssignResults

/-! ### Auxiliary definitions used by the statements -/

/-- A relative-deadline string in the canonical shape the portal emits,
with the day and hour counts given as digit strings. -/
def relString (ds hs : List Char) : String :=
  String.mk ("Will be closed after: ".data ++ ds ++ " days ".data ++ hs ++ " hours".data)

/-- Per-course names recorded in the failed-expansion list during an
exception-free run, in page order: one entry for every course whose
panel fails to expand. -/
def failedNames {ι : Type} : Nat → List (CourseSim ι) → List String
  | _, [] => []
  | i, c :: cs =>
    if c.expandOk then failedNames (i + 1) cs
    else (c.nameText.getD (defaultCourseName i)) :: failedNames (i + 1) cs

/-- All course names recorded in courses_found_on_page during an
exception-free run, in page order. -/
def foundNames {ι : Type} : Nat → List (CourseSim ι) → List String
  | _, [] => []
  | i, c :: cs => (c.nameText.getD (defaultCourseName i)) :: foundNames (i + 1) cs

/-! ## Lemmas -/

theorem containsSub_singleton (c : Char) (l : List Char) :
    containsSub [c] l = true ↔ c ∈ l := by
  induction l with
  | nil => simp [containsSub, findSubIdx, litPref]
  | cons x xs ih =>
    simp only [containsSub] at ih ⊢
    by_cases h : c = x
    · subst h
      simp [findSubIdx, litPref]
    · have hc : litPref [c] (x :: xs) = false := by simp [litPref, h]
      simp [findSubIdx, hc, Option.isSome_map, ih, List.mem_cons, h]

theorem takeWhile_app_all {p : Char → Bool} {l : List Char} (r : List Char)
    (h : l.all p = true) : (l ++ r).takeWhile p = l ++ r.takeWhile p := by
  induction l with
  | nil => simp
  | cons x xs ih =>
    simp only [List.all_cons, Bool.and_eq_true] at h
    simp [List.takeWhile_cons, h.1, ih h.2]

theorem dropWhile_app_all {p : Char → Bool} {l : List Char} (r : List Char)
    (h : l.all p = true) : (l ++ r).dropWhile p = r.dropWhile p := by
  induction l with
  | nil => simp
  | cons x xs ih =>
    simp only [List.all_cons, Bool.and_eq_true] at h
    simp [List.dropWhile_cons, h.1, ih h.2]

theorem replaceCh_id {a b : Char} {l : List Char} (h : ∀ c ∈ l, c ≠ a) :
    replaceCh a b l = l := by
  induction l with
  | nil => rfl
  | cons x xs ih =>
    have hx : x ≠ a := h x (List.mem_cons_self x xs)
    simp only [replaceCh, List.map_cons, if_neg hx]
    have := ih fun c hc => h c (List.mem_cons_of_mem x hc)
    simpa [replaceCh] using this

theorem pyStrip_eq_self {l : List Char} (h1 : l.dropWhile isSpaceCh = l)
    (h2 : l.reverse.dropWhile isSpaceCh = l.reverse) : pyStrip l = l := by
  unfold pyStrip
  rw [h1, h2, List.reverse_reverse]

theorem ciPref_self_app (l r : List Char) : ciPref l (l ++ r) = true := by
  induction l with
  | nil => rfl
  | cons x xs ih => simp [ciPref, ih]

theorem no_nl_of_digits {l : List Char} (h : l.all Char.isDigit = true) :
    ∀ c ∈ l, c ≠ '\n' := by
  intro c hc heq
  subst heq
  have := List.all_eq_true.mp h _ hc
  simp [Char.isDigit] at this

/-! ## Claim theorems -/

/-- Claim C7: an extracted quiz item is placed in the with-results bucket
iff its grade field is not the Not Graded sentinel and contains the slash
separator; grade 8/10 goes to with-results, Not Graded goes to
without-results, and a raw grade text of two dashes (or empty) is first
normalized to Not Graded. -/
theorem quiz_classification (it : QuizItemSim) :
    ((scrape_quizzes [⟨none, some "C1", true, none, [it]⟩]).quizzes_with_results
        = [processQuizItem "C1" it]
      ↔ ((processQuizItem "C1" it).grade ≠ "Not Graded"
          ∧ '/' ∈ (processQuizItem "C1" it).grade.data))
    ∧ ((scrape_quizzes [⟨none, some "C1", true, none, [it]⟩]).quizzes_without_results
        = [processQuizItem "C1" it]
      ↔ ¬ ((processQuizItem "C1" it).grade ≠ "Not Graded"
          ∧ '/' ∈ (processQuizItem "C1" it).grade.data))
    ∧ (it.gradeText = "8/10" →
        (scrape_quizzes [⟨none, some "C1", true, none, [it]⟩]).quizzes_with_results
          = [processQuizItem "C1" it])
    ∧ (it.gradeText = "Not Graded" →
        (scrape_quizzes [⟨none, some "C1", true, none, [it]⟩]).quizzes_without_results
          = [processQuizItem "C1" it])
    ∧ (it.gradeText = "--" ∨ it.gradeText = "" →
        (processQuizItem "C1" it).grade = "Not Graded") := by
  set qd := processQuizItem "C1" it with hqd
  have hslash : "/".data = ['/'] := rfl
  have hbr : quizHasResults qd = true ↔ (qd.grade ≠ "Not Graded" ∧ '/' ∈ qd.grade.data) := by
    simp [quizHasResults, hslash, containsSub_singleton]
  have hrun : (scrape_quizzes [⟨none, some "C1", true, none, [it]⟩]).quizzes_with_results
        = (if quizHasResults qd then [qd] else [])
      ∧ (scrape_quizzes [⟨none, some "C1", true, none, [it]⟩]).quizzes_without_results
        = (if quizHasResults qd then [] else [qd]) := by
    by_cases hq : quizHasResults qd
    · constructor <;>
        simp [scrape_quizzes, quizLoop, quizCourseStep, appendQuizItems, emptyQuizResults,
          ← hqd, hq]
    · constructor <;>
        simp [scrape_quizzes, quizLoop, quizCourseStep, appendQuizItems, emptyQuizResults,
          ← hqd, hq]
  refine ⟨?_, ?_, ?_, ?_, ?_⟩
  · rw [hrun.1]
    by_cases hq : quizHasResults qd
    · simp [hq, hbr.mp hq]
    · simp only [if_neg hq]
      constructor
      · intro h
        exact absurd h.symm (by simp)
      · intro h
        exact absurd (hbr.mpr h) hq
  · rw [hrun.2]
    by_cases hq : quizHasResults qd
    · simp only [if_pos hq]
      constructor
      · intro h
        exact absurd h (by simp)
      · intro h
        exact absurd (hbr.mp hq) h
    · simp only [if_neg hq]
      simp only [iff_true_intro rfl, true_iff]
      intro h
      exact hq (hbr.mpr h)
  · intro h
    rw [hrun.1, if_pos]
    rw [hbr]
    constructor
    · rw [hqd]
      simp [processQuizItem, normGrade, h]
    · rw [hqd]
      simp only [processQuizItem]
      rw [show normGrade it.gradeText = "8/10" by simp [normGrade, h]]
      decide
  · intro h
    rw [hrun.2, if_neg]
    rw [hbr]
    rintro ⟨hne, _⟩
    apply hne
    rw [hqd]
    simp [processQuizItem, normGrade, h]
  · intro h
    rw [hqd]
    rcases h with h | h <;> simp [processQuizItem, normGrade, h]

/-- Witness for claim C7 at a concrete graded quiz item. -/
theorem quiz_classification_witness :
    (scrape_quizzes [⟨none, some "C1", true, none,
        [⟨"Q1", "Closed at: Dec 5, 2024 at 11:59 PM", "8/10", some "1"⟩]⟩]).quizzes_with_results
      = [processQuizItem "C1" ⟨"Q1", "Closed at: Dec 5, 2024 at 11:59 PM", "8/10", some "1"⟩] :=
  (quiz_classification
    ⟨"Q1", "Closed at: Dec 5, 2024 at 11:59 PM", "8/10", some "1"⟩).2.2.1 rfl

/-- Claim C6: parse_date applied to the literal Closed at: Dec 5, 2024 at
11:59 PM strips the leading label, normalizes the single-digit day to
Dec 05, 2024 at 11:59 PM, and returns exactly 2024-12-05T23:59:00, the
first format of the ordered list being the one that matches. -/
theorem parse_date_dec5_literal (now : Int) :
    stripLabel "Closed at: Dec 5, 2024 at 11:59 PM".data = "Dec 5, 2024 at 11:59 PM".data
    ∧ padDay "Dec 5, 2024 at 11:59 PM".data = "Dec 05, 2024 at 11:59 PM".data
    ∧ tryFmt fmt1 "Dec 05, 2024 at 11:59 PM".data = some ⟨2024, 12, 5, 23, 59, 0⟩
    ∧ tryFormats allFmts "Dec 05, 2024 at 11:59 PM".data
        = tryFmt fmt1 "Dec 05, 2024 at 11:59 PM".data
    ∧ parseDateE "Closed at: Dec 5, 2024 at 11:59 PM" now
        = .ok (some (toSecs ⟨2024, 12, 5, 23, 59, 0⟩)) :=
  ⟨by decide, by decide, by decide, by decide, rfl⟩

/-- Claim C4 (the failing input): parse_date is not total.  On a relative
string whose day count exceeds the timedelta bound, the source reaches
datetime.now() + timedelta(...), which raises OverflowError; the
surrounding handler catches only ValueError and IndexError, so the
exception escapes parse_date. -/
theorem parse_date_overflow_raises :
    parseDateE "Will be closed after: 1000000000 days 0 hours" 0 = .error .overflow
    ∧ relSearch (pyStrip (replaceCh '\n' ' '
        "Will be closed after: 1000000000 days 0 hours".data))
        = some ("1000000000".data, "0".data) :=
  ⟨rfl, rfl⟩

theorem loginAux_retryable_all (script : Nat → AttemptOutcome) :
    ∀ rem i, 1 ≤ rem → (∀ j, i ≤ j → j < i + rem → retryable (script j) = true) →
      loginAux script i rem = (.loginFailed, i + rem) := by
  intro rem
  induction rem with
  | zero => intro i h1 _; omega
  | succ r ih =>
    intro i _ h2
    have hi : retryable (script i) = true := h2 i le_rfl (by omega)
    cases ho : script i with
    | success => rw [ho] at hi; simp [retryable] at hi
    | failTimeout b =>
      simp only [loginAux, ho]
      by_cases hr : r = 0
      · subst hr; simp
      · rw [if_neg hr]
        have heq := ih (i + 1) (by omega) (fun j hj1 hj2 => h2 j (by omega) (by omega))
        rw [heq]
        have : i + 1 + r = i + (r + 1) := by omega
        rw [this]
    | failOther a b c =>
      rw [ho] at hi
      simp only [retryable, Bool.not_eq_true'] at hi
      simp only [loginAux, ho]
      rw [if_neg (by simp [hi])]
      by_cases hr : r = 0
      · subst hr; simp
      · rw [if_neg hr]
        have heq := ih (i + 1) (by omega) (fun j hj1 hj2 => h2 j (by omega) (by omega))
        rw [heq]
        have : i + 1 + r = i + (r + 1) := by omega
        rw [this]

theorem loginAux_invalid_creds (script : Nat → AttemptOutcome) :
    ∀ k rem i b, k < rem → (∀ j, i ≤ j → j < i + k → retryable (script j) = true) →
      script (i + k) = .failOther true true b →
      loginAux script i rem = (.invalidCreds, i + k + 1) := by
  intro k
  induction k with
  | zero =>
    intro rem i b hk _ hs
    obtain ⟨r, rfl⟩ : ∃ r, rem = r + 1 := ⟨rem - 1, by omega⟩
    simp only [Nat.add_zero] at hs
    simp [loginAux, hs]
  | succ k ih =>
    intro rem i b hk h2 hs
    obtain ⟨r, rfl⟩ : ∃ r, rem = r + 1 := ⟨rem - 1, by omega⟩
    have hi : retryable (script i) = true := h2 i le_rfl (by omega)
    have hr : r ≠ 0 := by omega
    have hrec := ih r (i + 1) b (by omega)
      (fun j hj1 hj2 => h2 j (by omega) (by omega))
      (by rw [show i + 1 + k = i + (k + 1) by omega]; exact hs)
    cases ho : script i with
    | success => rw [ho] at hi; simp [retryable] at hi
    | failTimeout bb =>
      simp only [loginAux, ho]
      rw [if_neg hr, hrec]
      have : i + 1 + k + 1 = i + (k + 1) + 1 := by omega
      rw [this]
    | failOther a2 b2 c2 =>
      rw [ho] at hi
      simp only [retryable, Bool.not_eq_true'] at hi
      simp only [loginAux, ho]
      rw [if_neg (by simp [hi]), if_neg hr, hrec]
      have : i + 1 + k + 1 = i + (k + 1) + 1 := by omega
      rw [this]

/-- Claim C3 (amended): the login routine performs exactly maxLoginRetries
attempts when every attempt fails for a retryable reason and then raises
the login-failed error; it raises the invalid-credentials error
immediately, with no further retries, when an attempt fails with a
generic (non-timeout, non-missing-element) exception while the browser is
still on the login page showing the bad-credentials message - including
attempt 1.  (An attempt that fails with a timeout or missing-element
exception is retried regardless of what the portal page reports.) -/
theorem login_retry_and_invalid_creds (script : Nat → AttemptOutcome) (m : Nat) :
    (1 ≤ m → (∀ j, j < m → retryable (script j) = true) →
      login script m = (.loginFailed, m))
    ∧ (∀ k b, k < m → (∀ j, j < k → retryable (script j) = true) →
        script k = .failOther true true b →
        login script m = (.invalidCreds, k + 1)) := by
  constructor
  · intro h1 h2
    have := loginAux_retryable_all script m 0 h1 (fun j _ hj2 => h2 j (by omega))
    simpa [login] using this
  · intro k b hk h2 hs
    have := loginAux_invalid_creds script k m 0 b hk (fun j _ hj2 => h2 j (by omega))
      (by simpa using hs)
    simpa [login] using this

/-- Claim C3 counterexample: with the portal reporting bad credentials on
every attempt while each attempt fails with a timeout (the URL never
reaches the profile page), the first exception handler retries without
inspecting the page: login runs all 3 attempts and raises the
login-failed error instead of aborting immediately with
invalid-credentials. -/
theorem login_timeout_badcreds_retried :
    login (fun _ => .failTimeout true) 3 = (.loginFailed, 3)
    ∧ login (fun _ => .failTimeout true) 3 ≠ (.invalidCreds, 1) :=
  ⟨rfl, by decide⟩

/-- Witness for the amended claim C3 at concrete scripts. -/
theorem login_retry_witness :
    login (fun _ => .failTimeout false) 3 = (.loginFailed, 3)
    ∧ login (fun i => if i = 0 then .failTimeout false else .failOther true true false) 3
        = (.invalidCreds, 2) := by
  constructor
  · exact (login_retry_and_invalid_creds (fun _ => .failTimeout false) 3).1 (by omega)
      (fun j _ => rfl)
  · exact (login_retry_and_invalid_creds _ 3).2 1 false (by omega)
      (fun j hj => by
        have : j = 0 := by omega
        subst this
        rfl)
      rfl

theorem chunk10_length (l : List Deadline) :
    (chunk10 l).length = (l.length + 9) / 10 := by
  induction l using chunk10.induct with
  | case1 => simp [chunk10]
  | case2 x xs ih =>
    simp only [chunk10, List.length_cons, ih, List.length_drop]
    omega

theorem chunk10_getElem? (l : List Deadline) :
    ∀ i, (chunk10 l)[i]? =
      if i < (l.length + 9) / 10 then some ((l.drop (10 * i)).take 10) else none := by
  induction l using chunk10.induct with
  | case1 => intro i; simp [chunk10]
  | case2 x xs ih =>
    intro i
    cases i with
    | zero =>
      rw [if_pos (by simp [List.length_cons]; omega)]
      simp [chunk10]
    | succ j =>
      simp only [chunk10, List.getElem?_cons_succ, ih j, List.length_drop,
        List.length_cons]
      rw [List.drop_drop, show 10 + 10 * j = 10 * (j + 1) by ring]
      by_cases hj : j < (xs.length + 1 - 10 + 9) / 10
      · rw [if_pos hj, if_pos (by omega)]
      · rw [if_neg hj, if_neg (by omega)]

theorem buildMsgs_length (total : Nat) :
    ∀ (cs : List (List Deadline)) (i : Nat), (buildMsgs total i cs).length = cs.length := by
  intro cs
  induction cs with
  | nil => intro i; rfl
  | cons c cs ih => intro i; simp [buildMsgs, ih]

theorem buildMsgs_getElem? (total : Nat) :
    ∀ (cs : List (List Deadline)) (i j : Nat),
      (buildMsgs total i cs)[j]? =
        cs[j]?.map (fun c => Message.batch (i + j + 1) total (c.map mkEmbed)) := by
  intro cs
  induction cs with
  | nil => intro i j; simp [buildMsgs]
  | cons c cs ih =>
    intro i j
    cases j with
    | zero => simp [buildMsgs]
    | succ j =>
      simp only [buildMsgs, List.getElem?_cons_succ, ih (i + 1) j]
      have : i + 1 + j = i + (j + 1) := by omega
      rw [this]

/-- Claim C8: the notifier sends exactly one all-clear payload and no
further request when the deadline list is empty; otherwise it partitions
the list into batches of at most 10 in order, each request carrying its
1-based part index (23 deadlines give exactly 3 batches of sizes 10, 10
and 3); with a non-webhook-shaped URL it makes no network call at all. -/
theorem send_alerts_spec (ds : List Deadline) (url : String) :
    (urlOk url = false → send_deadline_alerts ds url = [])
    ∧ (urlOk url = true → ds = [] → send_deadline_alerts ds url = [.allClear])
    ∧ (urlOk url = true → ds ≠ [] →
        (send_deadline_alerts ds url).length = (ds.length + 9) / 10
        ∧ (∀ i, i < (ds.length + 9) / 10 →
            (send_deadline_alerts ds url)[i]?
              = some (.batch (i + 1) ((ds.length + 9) / 10)
                  (((ds.drop (10 * i)).take 10).map mkEmbed)))
        ∧ (∀ m ∈ send_deadline_alerts ds url,
            ∃ p e, m = Message.batch p ((ds.length + 9) / 10) e ∧ e ≠ [] ∧ e.length ≤ 10)
        ∧ (ds.length = 23 →
            (send_deadline_alerts ds url).length = 3
            ∧ (chunk10 ds).map List.length = [10, 10, 3])) := by
  refine ⟨?_, ?_, ?_⟩
  · intro h
    simp [send_deadline_alerts, h]
  · rintro h rfl
    simp [send_deadline_alerts, h, chunk10]
  · intro h hne
    obtain ⟨d, t, rfl⟩ : ∃ d t, ds = d :: t := by
      cases ds with
      | nil => exact absurd rfl hne
      | cons d t => exact ⟨d, t, rfl⟩
    have hchunk : chunk10 (d :: t) = (d :: t).take 10 :: chunk10 ((d :: t).drop 10) := by
      simp [chunk10]
    have hsend : send_deadline_alerts (d :: t) url
        = buildMsgs (chunk10 (d :: t)).length 0 (chunk10 (d :: t)) := by
      simp [send_deadline_alerts, h, hchunk]
    have hlen : (chunk10 (d :: t)).length = ((d :: t).length + 9) / 10 :=
      chunk10_length _
    have hget : ∀ i, i < ((d :: t).length + 9) / 10 →
        (send_deadline_alerts (d :: t) url)[i]?
          = some (.batch (i + 1) (((d :: t).length + 9) / 10)
              ((((d :: t).drop (10 * i)).take 10).map mkEmbed)) := by
      intro i hi
      rw [hsend, buildMsgs_getElem?, chunk10_getElem?, if_pos hi, hlen]
      simp
    refine ⟨?_, hget, ?_, ?_⟩
    · rw [hsend, buildMsgs_length, hlen]
    · intro m hm
      rw [hsend] at hm
      obtain ⟨i, hi⟩ := List.mem_iff_getElem?.mp hm
      have hilt : i < ((d :: t).length + 9) / 10 := by
        by_contra hge
        rw [buildMsgs_getElem?, chunk10_getElem?, if_neg (by omega)] at hi
        simp at hi
      have := hget i hilt
      rw [hsend, hi] at this
      obtain rfl : m = Message.batch (i + 1) (((d :: t).length + 9) / 10)
          ((((d :: t).drop (10 * i)).take 10).map mkEmbed) := Option.some.inj this
      refine ⟨i + 1, _, rfl, ?_, ?_⟩
      · have hdlen : ((d :: t).drop (10 * i)).length = (d :: t).length - 10 * i := by
          simp
        have hpos : 0 < (d :: t).length - 10 * i := by
          simp only [List.length_cons] at hilt ⊢
          omega
        simp only [ne_eq, List.map_eq_nil_iff]
        intro htake
        have := List.length_take 10 ((d :: t).drop (10 * i))
        rw [htake] at this
        simp only [List.length_nil] at this
        omega
      · simp only [List.length_map, List.length_take]
        omega
    · intro h23
      refine ⟨?_, ?_⟩
      · rw [hsend, buildMsgs_length, hlen, h23]
      · have ht : t.length = 22 := by simpa using h23
        apply List.ext_getElem?
        intro i
        rw [List.getElem?_map, chunk10_getElem?, h23]
        match i with
        | 0 => simp [ht]
        | 1 => simp [ht]
        | 2 => simp [ht]
        | (n + 3) =>
          rw [if_neg (by omega)]
          simp

/-- Witness for claim C8: a valid webhook URL with the empty list and
with 23 deadlines. -/
theorem send_alerts_witness :
    send_deadline_alerts [] "https://discord.com/api/webhooks/1/t" = [.allClear]
    ∧ (send_deadline_alerts (List.replicate 23 (⟨"c", "n", "s", 0, 0, "t"⟩ : Deadline))
        "https://discord.com/api/webhooks/1/t").length = 3
    ∧ (chunk10 (List.replicate 23 (⟨"c", "n", "s", 0, 0, "t"⟩ : Deadline))).map List.length
        = [10, 10, 3] := by
  have hurl : urlOk "https://discord.com/api/webhooks/1/t" = true := by decide
  have hlen : (List.replicate 23 (⟨"c", "n", "s", 0, 0, "t"⟩ : Deadline)).length = 23 := by
    simp
  have h3 := (send_alerts_spec (List.replicate 23 (⟨"c", "n", "s", 0, 0, "t"⟩ : Deadline))
      "https://discord.com/api/webhooks/1/t").2.2 hurl (by simp)
  exact ⟨(send_alerts_spec [] _).2.1 hurl rfl, (h3.2.2.2 hlen).1, (h3.2.2.2 hlen).2⟩

theorem appendQuizItems_counters (n : String) :
    ∀ (items : List QuizItemSim) (r : QuizResults),
      (appendQuizItems n items r).courses_processed = r.courses_processed
      ∧ (appendQuizItems n items r).quiz_courses_failed_expansion
          = r.quiz_courses_failed_expansion
      ∧ (appendQuizItems n items r).courses_found_on_page = r.courses_found_on_page := by
  intro items
  induction items with
  | nil => intro r; exact ⟨rfl, rfl, rfl⟩
  | cons it its ih =>
    intro r
    have heq : appendQuizItems n (it :: its) r
        = appendQuizItems n its
            (if quizHasResults (processQuizItem n it) then
              { r with quizzes_with_results :=
                  r.quizzes_with_results ++ [processQuizItem n it] }
            else
              { r with quizzes_without_results :=
                  r.quizzes_without_results ++ [processQuizItem n it] }) := rfl
    rw [heq]
    by_cases hq : quizHasResults (processQuizItem n it)
    · rw [if_pos hq]; exact ih _
    · rw [if_neg hq]; exact ih _

theorem quizCourseStep_ok (idx : Nat) (c : CourseSim QuizItemSim) (r : QuizResults)
    (hA : c.phaseAExc = none) (hB : c.phaseBExc = none) (hE : c.expandOk = true) :
    (quizCourseStep idx c r).courses_processed = r.courses_processed + 1
    ∧ (quizCourseStep idx c r).quiz_courses_failed_expansion
        = r.quiz_courses_failed_expansion
    ∧ (quizCourseStep idx c r).courses_found_on_page
        = r.courses_found_on_page ++ [c.nameText.getD (defaultCourseName idx)] := by
  by_cases hI : c.items.isEmpty <;>
    simp [quizCourseStep, hA, hB, hE, hI, appendQuizItems_counters]

theorem quizCourseStep_fail (idx : Nat) (c : CourseSim QuizItemSim) (r : QuizResults)
    (hA : c.phaseAExc = none) (hE : c.expandOk = false) :
    (quizCourseStep idx c r).courses_processed = r.courses_processed
    ∧ (quizCourseStep idx c r).quiz_courses_failed_expansion
        = r.quiz_courses_failed_expansion ++ [c.nameText.getD (defaultCourseName idx)]
    ∧ (quizCourseStep idx c r).courses_found_on_page
        = r.courses_found_on_page ++ [c.nameText.getD (defaultCourseName idx)] := by
  simp [quizCourseStep, hA, hE]

theorem quizLoop_clean :
    ∀ (cs : List (CourseSim QuizItemSim)) (idx : Nat) (r : QuizResults),
      (∀ c ∈ cs, c.phaseAExc = none ∧ c.phaseBExc = none) →
      (quizLoop idx cs r).courses_processed
          = r.courses_processed + (cs.filter (fun c => c.expandOk)).length
      ∧ (quizLoop idx cs r).quiz_courses_failed_expansion
          = r.quiz_courses_failed_expansion ++ failedNames idx cs
      ∧ (quizLoop idx cs r).courses_found_on_page
          = r.courses_found_on_page ++ foundNames idx cs := by
  intro cs
  induction cs with
  | nil =>
    intro idx r _
    simp [quizLoop, failedNames, foundNames]
  | cons c cs ih =>
    intro idx r h
    obtain ⟨hA, hB⟩ := h c (List.mem_cons_self c cs)
    have hrest : ∀ x ∈ cs, x.phaseAExc = none ∧ x.phaseBExc = none :=
      fun x hx => h x (List.mem_cons_of_mem c hx)
    obtain ⟨ih1, ih2, ih3⟩ := ih (idx + 1) (quizCourseStep idx c r) hrest
    simp only [quizLoop]
    by_cases hE : c.expandOk
    · obtain ⟨s1, s2, s3⟩ := quizCourseStep_ok idx c r hA hB hE
      refine ⟨?_, ?_, ?_⟩
      · rw [ih1, s1]
        simp [List.filter_cons, hE]
        omega
      · rw [ih2, s2]
        simp [failedNames, hE]
      · rw [ih3, s3]
        simp [foundNames, List.append_assoc]
    · have hE' : c.expandOk = false := by simpa using hE
      obtain ⟨s1, s2, s3⟩ := quizCourseStep_fail idx c r hA hE'
      refine ⟨?_, ?_, ?_⟩
      · rw [ih1, s1]
        simp [List.filter_cons, hE']
      · rw [ih2, s2]
        simp [failedNames, hE', List.append_assoc]
      · rw [ih3, s3]
        simp [foundNames, List.append_assoc]

theorem assignCourseStep_ok (idx : Nat) (c : CourseSim AssignItemSim) (r : AssignResults)
    (hA : c.phaseAExc = none) (hB : c.phaseBExc = none) (hE : c.expandOk = true) :
    (assignCourseStep idx c r).courses_processed = r.courses_processed + 1
    ∧ (assignCourseStep idx c r).assignment_courses_failed_expansion
        = r.assignment_courses_failed_expansion
    ∧ (assignCourseStep idx c r).courses_found_on_page
        = r.courses_found_on_page ++ [c.nameText.getD (defaultCourseName idx)] := by
  by_cases hI : c.items.isEmpty <;>
    simp [assignCourseStep, hA, hB, hE, hI]

theorem assignCourseStep_fail (idx : Nat) (c : CourseSim AssignItemSim) (r : AssignResults)
    (hA : c.phaseAExc = none) (hE : c.expandOk = false) :
    (assignCourseStep idx c r).courses_processed = r.courses_processed
    ∧ (assignCourseStep idx c r).assignment_courses_failed_expansion
        = r.assignment_courses_failed_expansion ++ [c.nameText.getD (defaultCourseName idx)]
    ∧ (assignCourseStep idx c r).courses_found_on_page
        = r.courses_found_on_page ++ [c.nameText.getD (defaultCourseName idx)] := by
  simp [assignCourseStep, hA, hE]

theorem assignLoop_clean :
    ∀ (cs : List (CourseSim AssignItemSim)) (idx : Nat) (r : AssignResults),
      (∀ c ∈ cs, c.phaseAExc = none ∧ c.phaseBExc = none) →
      (assignLoop idx cs r).courses_processed
          = r.courses_processed + (cs.filter (fun c => c.expandOk)).length
      ∧ (assignLoop idx cs r).assignment_courses_failed_expansion
          = r.assignment_courses_failed_expansion ++ failedNames idx cs
      ∧ (assignLoop idx cs r).courses_found_on_page
          = r.courses_found_on_page ++ foundNames idx cs := by
  intro cs
  induction cs with
  | nil =>
    intro idx r _
    simp [assignLoop, failedNames, foundNames]
  | cons c cs ih =>
    intro idx r h
    obtain ⟨hA, hB⟩ := h c (List.mem_cons_self c cs)
    have hrest : ∀ x ∈ cs, x.phaseAExc = none ∧ x.phaseBExc = none :=
      fun x hx => h x (List.mem_cons_of_mem c hx)
    obtain ⟨ih1, ih2, ih3⟩ := ih (idx + 1) (assignCourseStep idx c r) hrest
    simp only [assignLoop]
    by_cases hE : c.expandOk
    · obtain ⟨s1, s2, s3⟩ := assignCourseStep_ok idx c r hA hB hE
      refine ⟨?_, ?_, ?_⟩
      · rw [ih1, s1]
        simp [List.filter_cons, hE]
        omega
      · rw [ih2, s2]
        simp [failedNames, hE]
      · rw [ih3, s3]
        simp [foundNames, List.append_assoc]
    · have hE' : c.expandOk = false := by simpa using hE
      obtain ⟨s1, s2, s3⟩ := assignCourseStep_fail idx c r hA hE'
      refine ⟨?_, ?_, ?_⟩
      · rw [ih1, s1]
        simp [List.filter_cons, hE']
      · rw [ih2, s2]
        simp [failedNames, hE', List.append_assoc]
      · rw [ih3, s3]
        simp [foundNames, List.append_assoc]

theorem failedNames_length {ι : Type} :
    ∀ (cs : List (CourseSim ι)) (idx : Nat),
      (failedNames idx cs).length = (cs.filter (fun c => !c.expandOk)).length := by
  intro cs
  induction cs with
  | nil => intro idx; rfl
  | cons c cs ih =>
    intro idx
    by_cases hE : c.expandOk <;> simp [failedNames, List.filter_cons, hE, ih]

theorem foundNames_length {ι : Type} :
    ∀ (cs : List (CourseSim ι)) (idx : Nat), (foundNames idx cs).length = cs.length := by
  intro cs
  induction cs with
  | nil => intro idx; rfl
  | cons c cs ih => intro idx; simp [foundNames, ih]

theorem filter_split_length {α : Type} (p : α → Bool) :
    ∀ l : List α, (l.filter p).length + (l.filter (fun a => !p a)).length = l.length := by
  intro l
  induction l with
  | nil => rfl
  | cons a l ih =>
    by_cases hp : p a <;> simp [List.filter_cons, hp] <;> omega

/-- Claim C2 (amended): for an extraction run in which no per-course
exception is raised (each course either fails panel expansion and is
skipped, or is processed normally), over K course sections of which F
fail expansion: courses_processed = K - F, the failed-expansion list has
exactly one entry per failed course (its name, in page order), and
courses_processed + len(failed-expansion list) = len(courses_found) = K,
for both the quiz and the assignment extractor.  (When a per-course
exception is raised after a course was counted as processed, the course
is also appended to the failed-expansion list and the inequality
courses_processed + failed ≤ found fails, see the counterexample.) -/
theorem scrape_diagnostics_invariant
    (qs : List (CourseSim QuizItemSim)) (aas : List (CourseSim AssignItemSim))
    (hq : ∀ c ∈ qs, c.phaseAExc = none ∧ c.phaseBExc = none)
    (ha : ∀ c ∈ aas, c.phaseAExc = none ∧ c.phaseBExc = none) :
    ((scrape_quizzes qs).courses_processed
        = qs.length - (qs.filter (fun c => !c.expandOk)).length)
    ∧ (scrape_quizzes qs).quiz_courses_failed_expansion = failedNames 0 qs
    ∧ ((scrape_quizzes qs).courses_processed
        + (scrape_quizzes qs).quiz_courses_failed_expansion.length
        = (scrape_quizzes qs).courses_found_on_page.length)
    ∧ (scrape_quizzes qs).courses_found_on_page.length = qs.length
    ∧ ((scrape_assignments aas).courses_processed
        = aas.length - (aas.filter (fun c => !c.expandOk)).length)
    ∧ (scrape_assignments aas).assignment_courses_failed_expansion = failedNames 0 aas
    ∧ ((scrape_assignments aas).courses_processed
        + (scrape_assignments aas).assignment_courses_failed_expansion.length
        = (scrape_assignments aas).courses_found_on_page.length)
    ∧ (scrape_assignments aas).courses_found_on_page.length = aas.length := by
  obtain ⟨q1, q2, q3⟩ := quizLoop_clean qs 0 emptyQuizResults hq
  obtain ⟨a1, a2, a3⟩ := assignLoop_clean aas 0 emptyAssignResults ha
  have hsplitq := filter_split_length (fun c => c.expandOk) qs
  have hsplita := filter_split_length (fun c => c.expandOk) aas
  have hflq := failedNames_length qs 0
  have hfoq := foundNames_length qs 0
  have hfla := failedNames_length aas 0
  have hfoa := foundNames_length aas 0
  simp only [scrape_quizzes, scrape_assignments]
  rw [q1, q2, q3, a1, a2, a3]
  simp only [emptyQuizResults, emptyAssignResults, List.nil_append, Nat.zero_add,
    List.length_nil]
  exact ⟨by omega, trivial, by omega, hfoq, by omega, trivial, by omega, hfoa⟩

/-- Claim C2 counterexample: one course section whose panel expands (so
it is counted as processed) and which then raises a generic per-course
exception is also appended to the failed-expansion list, so
courses_processed + len(failed-expansion) exceeds len(courses_found):
1 + 1 > 1.  The same happens in the assignment extractor. -/
theorem scrape_counts_can_exceed_found :
    ((scrape_quizzes [⟨none, some "Math", true, some .other, []⟩]).courses_processed
      + (scrape_quizzes
          [⟨none, some "Math", true, some .other, []⟩]).quiz_courses_failed_expansion.length
      > (scrape_quizzes
          [⟨none, some "Math", true, some .other, []⟩]).courses_found_on_page.length)
    ∧ ((scrape_assignments [⟨none, some "Sci", true, some .other, []⟩]).courses_processed
      + (scrape_assignments
          [⟨none, some "Sci", true, some .other, []⟩]).assignment_courses_failed_expansion.length
      > (scrape_assignments
          [⟨none, some "Sci", true, some .other, []⟩]).courses_found_on_page.length) := by
  decide

/-- Witness for the amended claim C2: two quiz courses (one expands, one
fails) and one assignment course. -/
theorem scrape_diagnostics_witness :
    (scrape_quizzes [⟨none, some "A", true, none, []⟩,
        ⟨none, some "B", false, none, []⟩]).quiz_courses_failed_expansion
      = failedNames 0 [(⟨none, some "A", true, none, []⟩ : CourseSim QuizItemSim),
          ⟨none, some "B", false, none, []⟩]
    ∧ (scrape_quizzes [⟨none, some "A", true, none, []⟩,
        ⟨none, some "B", false, none, []⟩]).courses_processed = 2 - 1
    ∧ (scrape_assignments [⟨none, some "C", true, none, []⟩]).courses_found_on_page.length
      = 1 := by
  have h := scrape_diagnostics_invariant
    [⟨none, some "A", true, none, []⟩, ⟨none, some "B", false, none, []⟩]
    [⟨none, some "C", true, none, []⟩]
    (by intro c hc; fin_cases hc <;> exact ⟨rfl, rfl⟩)
    (by intro c hc; fin_cases hc; exact ⟨rfl, rfl⟩)
  refine ⟨h.2.1, ?_, h.2.2.2.2.2.2.2⟩
  have := h.1
  simpa using this

theorem findNum_skip (pat : List Char) (c : Char) (cs : List Char)
    (h : c.isDigit = false) : findNum pat (c :: cs) = findNum pat cs := by
  simp [findNum, h]

theorem findNum_run (pat ds rest : List Char) (hne : ds ≠ [])
    (hdig : ds.all Char.isDigit = true)
    (htw : rest.takeWhile Char.isDigit = [])
    (hdw : rest.dropWhile Char.isDigit = rest)
    (hci : ciPref pat (rest.dropWhile isSpaceCh) = true) :
    findNum pat (ds ++ rest)
      = some (ds, consumeOptS ((rest.dropWhile isSpaceCh).drop pat.length)) := by
  obtain ⟨d, ds2, rfl⟩ : ∃ d ds2, ds = d :: ds2 := by
    cases ds with
    | nil => exact absurd rfl hne
    | cons d ds2 => exact ⟨d, ds2, rfl⟩
  simp only [List.all_cons, Bool.and_eq_true] at hdig
  simp only [List.cons_append, findNum, hdig.1, if_true, List.append_eq]
  rw [takeWhile_app_all rest hdig.2, htw, List.append_nil,
    dropWhile_app_all rest hdig.2, hdw, if_pos hci]

theorem all_takeWhile' (p : Char → Bool) :
    ∀ l : List Char, ((l.takeWhile p).all p) = true := by
  intro l
  induction l with
  | nil => rfl
  | cons c cs ih =>
    by_cases hp : p c <;> simp [List.takeWhile_cons, hp, ih]

theorem findNum_some_digits (pat : List Char) :
    ∀ (l g r : List Char), findNum pat l = some (g, r) →
      g ≠ [] ∧ g.all Char.isDigit = true := by
  intro l
  induction l with
  | nil => intro g r h; simp [findNum] at h
  | cons c cs ih =>
    intro g r h
    by_cases hd : c.isDigit
    · simp only [findNum, hd, if_true] at h
      by_cases hci : ciPref pat (((cs.dropWhile Char.isDigit).dropWhile isSpaceCh))
      · rw [if_pos hci] at h
        obtain ⟨h1, _⟩ := Prod.mk.injEq .. ▸ Option.some.inj h
        refine ⟨by rw [← h1]; simp, ?_⟩
        rw [← h1]
        simp [hd, all_takeWhile']
      · rw [if_neg hci] at h
        exact ih g r h
    · rw [findNum_skip pat c cs (by simpa using hd)] at h
      exact ih g r h

theorem relTail_some_digits (l g1 g2 : List Char) (h : relTail l = some (g1, g2)) :
    (g1 ≠ [] ∧ g1.all Char.isDigit = true) ∧ (g2 ≠ [] ∧ g2.all Char.isDigit = true) := by
  unfold relTail at h
  cases h1 : findNum "day".data l with
  | none => rw [h1] at h; simp at h
  | some p1 =>
    obtain ⟨a, b⟩ := p1
    rw [h1] at h
    dsimp only at h
    cases h2 : findNum "hour".data b with
    | none => rw [h2] at h; simp at h
    | some p2 =>
      obtain ⟨c, d⟩ := p2
      rw [h2] at h
      dsimp only at h
      obtain ⟨rfl, rfl⟩ : a = g1 ∧ c = g2 := by
        have := Option.some.inj h
        simpa using this
      exact ⟨findNum_some_digits _ l a b h1, findNum_some_digits _ b c d h2⟩

theorem relSearch_some_digits :
    ∀ (l g1 g2 : List Char), relSearch l = some (g1, g2) →
      (g1 ≠ [] ∧ g1.all Char.isDigit = true) ∧ (g2 ≠ [] ∧ g2.all Char.isDigit = true) := by
  intro l
  induction l with
  | nil => intro g1 g2 h; simp [relSearch] at h
  | cons c cs ih =>
    intro g1 g2 h
    by_cases hci : ciPref relLit (c :: cs)
    · simp only [relSearch, hci, if_true] at h
      cases ht : relTail ((c :: cs).drop relLit.length) with
      | none => rw [ht] at h; exact ih g1 g2 h
      | some p =>
        rw [ht] at h
        have hp : p = (g1, g2) := Option.some.inj h
        exact relTail_some_digits _ g1 g2 (by rw [ht, hp])
    · simp only [relSearch, hci, if_false] at h
      exact ih g1 g2 h

theorem listToNat?_digits {l : List Char} (h1 : l ≠ []) (h2 : l.all Char.isDigit = true) :
    listToNat? l = some (decVal l) := by
  simp [listToNat?, h1, h2]

theorem pyStrip_sandwich (c : Char) (mid : List Char) (e : Char)
    (hc : isSpaceCh c = false) (he : isSpaceCh e = false) :
    pyStrip (c :: (mid ++ [e])) = c :: (mid ++ [e]) := by
  unfold pyStrip
  have h1 : (c :: (mid ++ [e])).dropWhile isSpaceCh = c :: (mid ++ [e]) := by
    simp [List.dropWhile_cons, hc]
  have h2 : (c :: (mid ++ [e])).reverse = e :: (mid.reverse ++ [c]) := by
    simp
  have h3 : (e :: (mid.reverse ++ [c])).dropWhile isSpaceCh = e :: (mid.reverse ++ [c]) := by
    simp [List.dropWhile_cons, he]
  rw [h1, h2, h3, ← h2, List.reverse_reverse]

theorem relSearch_at_start (r : List Char) (g : List Char × List Char)
    (h : relTail r = some g) : relSearch (relLit ++ r) = some g := by
  have hlit : relLit = 'W' :: "ill be closed after:".data := by decide
  have harg : relLit ++ r = 'W' :: ("ill be closed after:".data ++ r) := by
    rw [hlit, List.cons_append]
  rw [harg]
  have hci := ciPref_self_app relLit r
  rw [harg] at hci
  rw [relSearch.eq_def]
  dsimp only
  rw [if_pos hci]
  have hdrop : ('W' :: ("ill be closed after:".data ++ r)).drop relLit.length = r := by
    rw [← harg]
    exact List.drop_left _ _
  rw [hdrop, h]

theorem relTail_canonical (ds hs : List Char) (hdne : ds ≠ [])
    (hdd : ds.all Char.isDigit = true) (hhne : hs ≠ [])
    (hhd : hs.all Char.isDigit = true) :
    relTail (' ' :: (ds ++ (" days ".data ++ (hs ++ " hours".data)))) = some (ds, hs) := by
  have hB : " days ".data = [' ', 'd', 'a', 'y', 's', ' '] := by decide
  have hC : " hours".data = [' ', 'h', 'o', 'u', 'r', 's'] := by decide
  have hday : "day".data = ['d', 'a', 'y'] := by decide
  have hhour : "hour".data = ['h', 'o', 'u', 'r'] := by decide
  rw [hB, hC]
  have h1 : findNum "day".data
      (' ' :: (ds ++ ([' ', 'd', 'a', 'y', 's', ' '] ++ (hs ++ [' ', 'h', 'o', 'u', 'r', 's']))))
      = some (ds, ' ' :: (hs ++ [' ', 'h', 'o', 'u', 'r', 's'])) := by
    rw [findNum_skip _ ' ' _ (by decide)]
    rw [findNum_run "day".data ds
      ([' ', 'd', 'a', 'y', 's', ' '] ++ (hs ++ [' ', 'h', 'o', 'u', 'r', 's']))
      hdne hdd rfl rfl (by rw [hday]; rfl)]
    rfl
  have h2 : findNum "hour".data (' ' :: (hs ++ [' ', 'h', 'o', 'u', 'r', 's']))
      = some (hs, []) := by
    rw [findNum_skip _ ' ' _ (by decide)]
    rw [findNum_run "hour".data hs [' ', 'h', 'o', 'u', 'r', 's']
      hhne hhd rfl rfl (by rw [hhour]; rfl)]
    rfl
  unfold relTail
  rw [h1]
  dsimp only
  rw [h2]

theorem no_nl_of_all {l : List Char} (h : l.all (fun c => c ≠ '\n') = true) :
    ∀ c ∈ l, c ≠ '\n' := by
  intro c hc
  simpa using List.all_eq_true.mp h c hc

/-- Claim C5 (amended): for every relative string of the canonical form
Will be closed after: D days H hours with D, H given as decimal digit
strings, parse_date evaluated at now returns exactly now + D days + H
hours, provided the offset stays within the datetime range (the
normalized timedelta day count at most 999999999 and the sum inside
[datetime.min, datetime.max]); beyond that range the source raises
OverflowError instead of returning (see the counterexample). -/
theorem relative_parse_exact (now : Int) (ds hs : List Char)
    (hdne : ds ≠ []) (hhne : hs ≠ [])
    (hdd : ds.all Char.isDigit = true) (hhd : hs.all Char.isDigit = true)
    (hbound : (decVal ds * 86400 + decVal hs * 3600) / 86400 ≤ 999999999)
    (hlo : minSecs ≤ now + (decVal ds * 86400 + decVal hs * 3600 : Nat))
    (hhi : now + (decVal ds * 86400 + decVal hs * 3600 : Nat) ≤ maxSecs) :
    parseDateE (relString ds hs) now
      = .ok (some (now + (decVal ds * 86400 + decVal hs * 3600 : Nat))) := by
  have hA : "Will be closed after: ".data
      = ['W', 'i', 'l', 'l', ' ', 'b', 'e', ' ', 'c', 'l', 'o', 's', 'e', 'd', ' ',
         'a', 'f', 't', 'e', 'r', ':', ' '] := by decide
  have hB : " days ".data = [' ', 'd', 'a', 'y', 's', ' '] := by decide
  have hC : " hours".data = [' ', 'h', 'o', 'u', 'r', 's'] := by decide
  have hlit : relLit
      = ['W', 'i', 'l', 'l', ' ', 'b', 'e', ' ', 'c', 'l', 'o', 's', 'e', 'd', ' ',
         'a', 'f', 't', 'e', 'r', ':'] := by decide
  have hdata : (relString ds hs).data
      = "Will be closed after: ".data ++ ds ++ " days ".data ++ hs ++ " hours".data := rfl
  have hsandwich : (relString ds hs).data
      = 'W' :: ((['i', 'l', 'l', ' ', 'b', 'e', ' ', 'c', 'l', 'o', 's', 'e', 'd', ' ',
          'a', 'f', 't', 'e', 'r', ':', ' '] ++ ds ++ [' ', 'd', 'a', 'y', 's', ' '] ++ hs
          ++ [' ', 'h', 'o', 'u', 'r']) ++ ['s']) := by
    rw [hdata, hA, hB, hC]
    simp only [List.append_assoc, List.cons_append, List.nil_append]
  have hnonempty : relString ds hs ≠ "" := by
    intro he
    have h0 := congrArg String.data he
    rw [hsandwich] at h0
    simp at h0
  have hsent : relString ds hs ∉ sentinels := by
    intro hmem
    simp only [sentinels, List.mem_cons, List.not_mem_nil, or_false] at hmem
    rcases hmem with he | he | he | he <;>
      · have h0 := congrArg String.data he
        rw [hsandwich] at h0
        simp at h0
  have hnl : replaceCh '\n' ' ' (relString ds hs).data = (relString ds hs).data := by
    apply replaceCh_id
    rw [hdata, hA, hB, hC]
    intro c hc
    simp only [List.append_assoc, List.mem_append] at hc
    rcases hc with hc | hc | hc | hc | hc
    · exact no_nl_of_all (by decide) c hc
    · exact no_nl_of_digits hdd c hc
    · exact no_nl_of_all (by decide) c hc
    · exact no_nl_of_digits hhd c hc
    · exact no_nl_of_all (by decide) c hc
  have hstrip : pyStrip (relString ds hs).data = (relString ds hs).data := by
    rw [hsandwich]
    exact pyStrip_sandwich 'W' _ 's' (by decide) (by decide)
  have hshape : (relString ds hs).data
      = relLit ++ (' ' :: (ds ++ (" days ".data ++ (hs ++ " hours".data)))) := by
    rw [hdata, hA, hB, hC, hlit]
    simp only [List.append_assoc, List.cons_append, List.nil_append]
  have hsearch : relSearch (pyStrip (replaceCh '\n' ' ' (relString ds hs).data))
      = some (ds, hs) := by
    rw [hnl, hstrip, hshape]
    exact relSearch_at_start _ _ (relTail_canonical ds hs hdne hdd hhne hhd)
  unfold parseDateE
  rw [if_neg (by simp [hnonempty, hsent])]
  dsimp only
  rw [hsearch]
  dsimp only
  rw [listToNat?_digits hdne hdd, listToNat?_digits hhne hhd]
  dsimp only
  unfold relCompute
  rw [if_pos hbound, if_pos (by
    simp only [Bool.and_eq_true, decide_eq_true_eq]
    push_cast at hlo hhi
    exact ⟨hlo, hhi⟩)]

/-- Claim C5 counterexample: the claim as stated quantifies over all
nonnegative D and H, but at D = 1000000000 (exceeding the timedelta day
bound) parse_date raises OverflowError instead of returning
now + D days + H hours. -/
theorem relative_parse_huge_d_raises :
    relString "1000000000".data "0".data = "Will be closed after: 1000000000 days 0 hours"
    ∧ parseDateE "Will be closed after: 1000000000 days 0 hours" 0 = .error .overflow
    ∧ Except.error PyErr.overflow
        ≠ Except.ok (some ((0 : Int) + (1000000000 * 86400 + 0 * 3600 : Nat))) :=
  ⟨by decide, rfl, fun h => Except.noConfusion h⟩

/-- Witness for the amended claim C5 at D = 2, H = 5, now = 0. -/
theorem relative_parse_exact_witness :
    parseDateE (relString "2".data "5".data) 0
      = .ok (some ((0 : Int) + (decVal "2".data * 86400 + decVal "5".data * 3600 : Nat))) := by
  exact relative_parse_exact 0 "2".data "5".data (by decide) (by decide) (by decide)
    (by decide) (by decide) (by decide) (by decide)

/-- Claim C9 (amended): whenever the relative-date pattern matches the
cleaned input inside parse_date, the captured groups are digit-only, so
the integer conversions cannot fail and the fall-through from the
matched relative pattern to absolute parsing is unreachable; the result
is then determined by the relative branch alone, which returns exactly
now + D days + H hours, or raises OverflowError when that offset leaves
the datetime range - it never returns null from a matched relative
pattern. -/
theorem relative_match_no_fallthrough (s : String) (now : Int) (g1 g2 : List Char)
    (hne : s ≠ "") (hsent : s ∉ sentinels)
    (hm : relSearch (pyStrip (replaceCh '\n' ' ' s.data)) = some (g1, g2)) :
    listToNat? g1 = some (decVal g1) ∧ listToNat? g2 = some (decVal g2)
    ∧ parseDateE s now = relCompute now (decVal g1) (decVal g2)
    ∧ (relCompute now (decVal g1) (decVal g2)
        = .ok (some (now + (decVal g1 * 86400 + decVal g2 * 3600 : Nat)))
      ∨ relCompute now (decVal g1) (decVal g2) = .error .overflow) := by
  obtain ⟨⟨h1, h2⟩, h3, h4⟩ := relSearch_some_digits _ _ _ hm
  refine ⟨listToNat?_digits h1 h2, listToNat?_digits h3 h4, ?_, ?_⟩
  · unfold parseDateE
    rw [if_neg (by simp [hne, hsent])]
    dsimp only
    rw [hm]
    dsimp only
    rw [listToNat?_digits h1 h2, listToNat?_digits h3 h4]
  · unfold relCompute
    dsimp only
    split_ifs
    · left
      rfl
    · right
      rfl
    · right
      rfl

/-- Claim C9 counterexample: a matched relative pattern whose day count
exceeds the timedelta bound does not produce a datetime - the source
raises OverflowError (the fall-through is still not taken, but the claim
that a match always yields a non-null datetime fails). -/
theorem relative_match_overflow_no_datetime :
    relSearch (pyStrip (replaceCh '\n' ' '
        "Will be closed after: 1000000001 days 2 hours".data))
      = some ("1000000001".data, "2".data)
    ∧ parseDateE "Will be closed after: 1000000001 days 2 hours" 0 = .error .overflow :=
  ⟨by decide, rfl⟩

/-- Witness for the amended claim C9 at a concrete matched input. -/
theorem relative_match_witness :
    parseDateE "Will be closed after: 1 days 2 hours" 0
      = relCompute 0 (decVal "1".data) (decVal "2".data) :=
  (relative_match_no_fallthrough "Will be closed after: 1 days 2 hours" 0
    "1".data "2".data (by decide) (by decide) (by decide)).2.2.1

/-- Claim C10: days_left in the deadline evaluator is the whole-day
truncation of due - now, so the inclusion window extends to strictly
less than threshold + 1 full days: a task due strictly in the future at
now + threshold days + h hours with 0 ≤ h < 24 is included with
days_left = threshold. -/
theorem days_left_truncation (now : Int) (thr h : Nat) (s : String)
    (hh : h < 24) (hpos : 0 < thr * 86400 + h * 3600)
    (hp : parseDateE s now = .ok (some (now + (thr * 86400 + h * 3600 : Nat)))) :
    check_upcoming_deadlines
        ⟨[⟨some "C", some "N", some "Assignment", some s, none⟩], [], []⟩ thr now
      = .ok [⟨"C", "N", s, now + (thr * 86400 + h * 3600 : Nat), thr, "Assignment"⟩] := by
  have hs : s ≠ "" := by
    intro he
    rw [he] at hp
    have h0 : parseDateE "" now = .ok none := rfl
    rw [h0] at hp
    simp at hp
  have hres : resolvedDate ⟨some "C", some "N", some "Assignment", some s, none⟩
      = some s := by
    simp [resolvedDate, hs]
  have hdl : daysLeftOf (now + (thr * 86400 + h * 3600 : Nat)) now = thr := by
    unfold daysLeftOf
    have he : now + ((thr * 86400 + h * 3600 : Nat) : Int) - now
        = ((thr * 86400 + h * 3600 : Nat) : Int) := by ring
    rw [he, Int.toNat_natCast]
    omega
  have hlt : now < now + ((thr * 86400 + h * 3600 : Nat) : Int) := by omega
  have heval : evalTaskE now thr ⟨some "C", some "N", some "Assignment", some s, none⟩
      = .ok (some ⟨"C", "N", s, now + (thr * 86400 + h * 3600 : Nat), thr, "Assignment"⟩) := by
    unfold evalTaskE
    rw [hres]
    dsimp only
    rw [hp]
    dsimp only
    rw [if_pos (by simp only [Bool.and_eq_true, decide_eq_true_eq]; exact ⟨hlt, by rw [hdl]⟩)]
    unfold mkDeadline
    rw [hdl]
    rfl
  unfold check_upcoming_deadlines
  have htasks : allTasks ⟨[⟨some "C", some "N", some "Assignment", some s, none⟩], [], []⟩
      = [⟨some "C", some "N", some "Assignment", some s, none⟩] := rfl
  rw [htasks]
  unfold collectE
  rw [heval]
  dsimp only
  rfl

/-- Witness for claim C10 at thr = 2, h = 5, now = 0 with a concrete
relative date string. -/
theorem days_left_truncation_witness :
    check_upcoming_deadlines
        ⟨[⟨some "C", some "N", some "Assignment",
            some "Will be closed after: 2 days 5 hours", none⟩], [], []⟩ 2 0
      = .ok [⟨"C", "N", "Will be closed after: 2 days 5 hours",
          (0 : Int) + (2 * 86400 + 5 * 3600 : Nat), 2, "Assignment"⟩] := by
  exact days_left_truncation 0 2 5 "Will be closed after: 2 days 5 hours"
    (by decide) (by decide) (by decide)

theorem collectE_ok_mem (now : Int) (thr : Nat) :
    ∀ (ts : List Task) (L : List Deadline), collectE now thr ts = .ok L →
      ∀ dl, dl ∈ L ↔ ∃ t ∈ ts, evalTaskE now thr t = .ok (some dl) := by
  intro ts
  induction ts with
  | nil =>
    intro L hL dl
    obtain rfl : ([] : List Deadline) = L := by
      simpa [collectE] using hL
    simp
  | cons t ts ih =>
    intro L hL dl
    unfold collectE at hL
    cases he : evalTaskE now thr t with
    | error e => rw [he] at hL; simp at hL
    | ok o =>
      rw [he] at hL
      cases o with
      | none =>
        dsimp only at hL
        rw [ih L hL dl]
        constructor
        · rintro ⟨x, hx, hex⟩
          exact ⟨x, List.mem_cons_of_mem t hx, hex⟩
        · rintro ⟨x, hx, hex⟩
          rcases List.mem_cons.mp hx with rfl | hx
          · rw [he] at hex
            simp at hex
          · exact ⟨x, hx, hex⟩
      | some d =>
        dsimp only at hL
        cases hrest : collectE now thr ts with
        | error e => rw [hrest] at hL; simp at hL
        | ok rest =>
          rw [hrest] at hL
          obtain rfl : d :: rest = L := by simpa using hL
          rw [List.mem_cons]
          constructor
          · rintro (rfl | hmem)
            · exact ⟨t, List.mem_cons_self t ts, he⟩
            · obtain ⟨x, hx, hex⟩ := (ih rest hrest dl).mp hmem
              exact ⟨x, List.mem_cons_of_mem t hx, hex⟩
          · rintro ⟨x, hx, hex⟩
            rcases List.mem_cons.mp hx with rfl | hx
            · rw [he] at hex
              left
              have := Option.some.inj (Except.ok.inj hex)
              exact this.symm
            · right
              exact (ih rest hrest dl).mpr ⟨x, hx, hex⟩

theorem collectE_ok_eq_filterMap (now : Int) (thr : Nat) :
    ∀ (ts : List Task) (L : List Deadline), collectE now thr ts = .ok L →
      L = ts.filterMap
        (fun t => match evalTaskE now thr t with | .ok o => o | .error _ => none) := by
  intro ts
  induction ts with
  | nil =>
    intro L hL
    simpa [collectE] using hL.symm
  | cons t ts ih =>
    intro L hL
    unfold collectE at hL
    cases he : evalTaskE now thr t with
    | error e => rw [he] at hL; simp at hL
    | ok o =>
      rw [he] at hL
      cases o with
      | none =>
        dsimp only at hL
        rw [List.filterMap_cons, he]
        exact ih L hL
      | some d =>
        dsimp only at hL
        cases hrest : collectE now thr ts with
        | error e => rw [hrest] at hL; simp at hL
        | ok rest =>
          rw [hrest] at hL
          obtain rfl : d :: rest = L := by simpa using hL
          rw [List.filterMap_cons, he]
          rw [← ih rest hrest]

theorem orderedInsert_filter_due (v : Int) (a : Deadline) :
    ∀ l : List Deadline,
      (List.orderedInsert dueLe a l).filter (fun x => decide (x.due = v))
        = if a.due = v then a :: l.filter (fun x => decide (x.due = v))
          else l.filter (fun x => decide (x.due = v)) := by
  intro l
  induction l with
  | nil =>
    by_cases hv : a.due = v <;> simp [List.orderedInsert, hv]
  | cons b l ih =>
    by_cases hab : dueLe a b
    · rw [List.orderedInsert_of_le _ _ hab]
      by_cases hv : a.due = v <;> simp [List.filter_cons, hv]
    · have hstep : List.orderedInsert dueLe a (b :: l) = b :: List.orderedInsert dueLe a l := by
        simp [List.orderedInsert, hab]
      rw [hstep]
      have hblt : b.due < a.due := by
        have := hab
        unfold dueLe at this
        omega
      by_cases hv : a.due = v
      · have hbv : ¬ b.due = v := by omega
        simp only [List.filter_cons, hbv, decide_eq_true_eq, if_neg, decide_eq_false hbv]
        rw [ih]
        simp [hv]
      · simp only [List.filter_cons]
        rw [ih]
        simp [hv]

theorem insertionSort_filter_due (v : Int) :
    ∀ l : List Deadline,
      (List.insertionSort dueLe l).filter (fun x => decide (x.due = v))
        = l.filter (fun x => decide (x.due = v)) := by
  intro l
  induction l with
  | nil => rfl
  | cons a l ih =>
    show (List.orderedInsert dueLe a (List.insertionSort dueLe l)).filter _ = _
    rw [orderedInsert_filter_due, ih]
    by_cases hv : a.due = v <;> simp [List.filter_cons, hv]

theorem evalTaskE_ok_some_iff (now : Int) (thr : Nat) (t : Task) (dl : Deadline) :
    evalTaskE now thr t = .ok (some dl) ↔
      ∃ s due, resolvedDate t = some s ∧ parseDateE s now = .ok (some due)
        ∧ now < due ∧ daysLeftOf due now ≤ thr ∧ dl = mkDeadline t s due now := by
  unfold evalTaskE
  cases hres : resolvedDate t with
  | none => simp
  | some s =>
    dsimp only
    cases hp : parseDateE s now with
    | error e => simp [hp]
    | ok o =>
      cases o with
      | none => simp [hp]
      | some due =>
        dsimp only
        by_cases hcond : now < due ∧ daysLeftOf due now ≤ thr
        · rw [if_pos (by simp only [Bool.and_eq_true, decide_eq_true_eq]; exact hcond)]
          constructor
          · intro hx
            refine ⟨s, due, rfl, hp, hcond.1, hcond.2, ?_⟩
            exact (Option.some.inj (Except.ok.inj hx)).symm
          · rintro ⟨s', due', hs', hp', _, _, rfl⟩
            obtain rfl : s = s' := Option.some.inj hs'
            rw [hp] at hp'
            obtain rfl : due = due' := Option.some.inj (Except.ok.inj hp')
            rfl
        · rw [if_neg (by simp only [Bool.and_eq_true, decide_eq_true_eq]; exact hcond)]
          constructor
          · intro hx
            simp at hx
          · rintro ⟨s', due', hs', hp', h1, h2, rfl⟩
            obtain rfl : s = s' := Option.some.inj hs'
            rw [hp] at hp'
            obtain rfl : due = due' := Option.some.inj (Except.ok.inj hp')
            exact absurd ⟨h1, h2⟩ hcond

/-- Claim C1 (amended): whenever the deadline evaluator completes without
an uncaught exception (no date string overflows datetime arithmetic), it
returns exactly the tasks whose resolved date string parses to a point
strictly in the future with days_left at most the threshold (days_left
is a Nat, so 0 ≤ days_left holds by construction): a past due date is
excluded, days_left = threshold is included, days_left = threshold + 1
is excluded; the output is sorted ascending by parsed due date, and
stable with respect to input order on ties (the elements at each due
value appear exactly in input order).  On a dataset containing a
relative date string whose offset overflows, the evaluator raises
instead of returning (see the counterexample). -/
theorem check_upcoming_characterisation (data : CheckData) (thr : Nat) (now : Int)
    (L : List Deadline) (hok : check_upcoming_deadlines data thr now = .ok L) :
    (∀ dl, dl ∈ L ↔ ∃ t ∈ allTasks data, ∃ s due,
        resolvedDate t = some s ∧ parseDateE s now = .ok (some due)
        ∧ now < due ∧ daysLeftOf due now ≤ thr ∧ dl = mkDeadline t s due now)
    ∧ List.Sorted dueLe L
    ∧ (∀ v : Int, L.filter (fun x => decide (x.due = v))
        = ((allTasks data).filterMap
            (fun t => match evalTaskE now thr t with | .ok o => o | .error _ => none)).filter
          (fun x => decide (x.due = v))) := by
  unfold check_upcoming_deadlines at hok
  cases hc : collectE now thr (allTasks data) with
  | error e => rw [hc] at hok; simp at hok
  | ok pre =>
    rw [hc] at hok
    dsimp only at hok
    obtain rfl : List.insertionSort dueLe pre = L := Except.ok.inj hok
    refine ⟨?_, ?_, ?_⟩
    · intro dl
      rw [(List.perm_insertionSort dueLe pre).mem_iff]
      rw [collectE_ok_mem now thr _ pre hc dl]
      constructor
      · rintro ⟨x, hx, hex⟩
        exact ⟨x, hx, (evalTaskE_ok_some_iff now thr x dl).mp hex⟩
      · rintro ⟨x, hx, hex⟩
        exact ⟨x, hx, (evalTaskE_ok_some_iff now thr x dl).mpr hex⟩
    · exact List.sorted_insertionSort dueLe pre
    · intro v
      rw [insertionSort_filter_due, collectE_ok_eq_filterMap now thr _ pre hc]

/-- Claim C1 counterexample: on a scraped dataset containing a task whose
relative date string overflows datetime arithmetic, the evaluator does
not return a list at all - the OverflowError from parse_date propagates
out of check_upcoming_deadlines. -/
theorem check_upcoming_raises_on_overflow_data :
    check_upcoming_deadlines
        ⟨[⟨some "C", some "N", some "Assignment",
            some "Will be closed after: 1000000000 days 0 hours", none⟩], [], []⟩ 3 0
      = .error .overflow := rfl

/-- Witness for the amended claim C1 on a concrete dataset with one task
due in 2 days and 5 hours. -/
theorem check_upcoming_witness :
    List.Sorted dueLe [(⟨"C", "N", "Will be closed after: 2 days 5 hours", 190800, 2,
        "Assignment"⟩ : Deadline)]
    ∧ ([(⟨"C", "N", "Will be closed after: 2 days 5 hours", 190800, 2,
          "Assignment"⟩ : Deadline)].filter (fun x => decide (x.due = 190800))
        = ((allTasks ⟨[⟨some "C", some "N", some "Assignment",
              some "Will be closed after: 2 days 5 hours", none⟩], [], []⟩).filterMap
            (fun t => match evalTaskE 0 3 t with | .ok o => o | .error _ => none)).filter
          (fun x => decide (x.due = 190800))) :=
  ⟨(check_upcoming_characterisation
      ⟨[⟨some "C", some "N", some "Assignment",
          some "Will be closed after: 2 days 5 hours", none⟩], [], []⟩ 3 0
      [⟨"C", "N", "Will be closed after: 2 days 5 hours", 190800, 2, "Assignment"⟩]
      (by decide)).2.1,
   (check_upcoming_characterisation
      ⟨[⟨some "C", some "N", some "Assignment",
          some "Will be closed after: 2 days 5 hours", none⟩], [], []⟩ 3 0
      [⟨"C", "N", "Will be closed after: 2 days 5 hours", 190800, 2, "Assignment"⟩]
      (by decide)).2.2 190800⟩

end UniStacker
